import Mathlib

/-!
Verification of the result-cache component of the ExtractReq backend
(`src/Backend/app/services/cache_service.py`).

The development shallowly embeds the cache service in Lean:

* Python `str.lower()` / `str.strip()` are modelled on ASCII text
  (`pyLower`, `pyStrip`); the service's inputs are URLs, CSV text and
  comments, and the claims' scenarios are ASCII.
* `hashlib.sha256` is implemented in full over byte lists, with 32-bit
  words represented as `Nat` reduced mod 2^32.
* `json.dumps` / `json.loads` are modelled by an executable printer for
  the exact blob the service stores and a general fuel-based JSON parser
  (Python's default separators and `ensure_ascii` escaping).
* `base64.b64encode` / `b64decode` are implemented over byte lists.
* Redis is modelled as an association list of entries with absolute
  expiry times plus a reachability flag; every client call is an
  `Except`-valued step that fails when the store is unreachable, and the
  service operations translate any failure into their no-result outcome,
  mirroring the `try`/`except` blocks of the source.
-/

namespace ExtractReq

/-! ### Python string normalization (ASCII model of `lower`/`strip`) -/

/-- ASCII model of Python `str.lower`: maps `A`-`Z` to `a`-`z`, leaves
every other character unchanged. -/
def lowerCh (c : Char) : Char :=
  if 65 ≤ c.toNat ∧ c.toNat ≤ 90 then Char.ofNat (c.toNat + 32) else c

/-- Characters Python `str.strip` removes: space, tab, newline, carriage
return, vertical tab, form feed. -/
def isPyWs (c : Char) : Bool :=
  c.toNat = 32 || c.toNat = 9 || c.toNat = 10 || c.toNat = 13 ||
  c.toNat = 11 || c.toNat = 12

/-- Model of Python `str.lower` on a whole string. -/
def pyLower (s : String) : String := ⟨s.toList.map lowerCh⟩

/-- Strip leading and trailing whitespace from a character list. -/
def stripChars (l : List Char) : List Char :=
  ((l.dropWhile isPyWs).reverse.dropWhile isPyWs).reverse

/-- Model of Python `str.strip`. -/
def pyStrip (s : String) : String := ⟨stripChars s.toList⟩

/-- The normalization of `_generate_cache_key`:
`content.lower().strip()`. -/
def pyNormalize (s : String) : String := pyStrip (pyLower s)

/-! ### UTF-8 encoding (`str.encode`) -/

/-- UTF-8 bytes of one character (code points below `0xD800` or scalar
values above, as in Lean's `Char`). -/
def utf8Ch (c : Char) : List Nat :=
  let n := c.toNat
  if n < 128 then [n]
  else if n < 2048 then [192 + n / 64, 128 + n % 64]
  else if n < 65536 then [224 + n / 4096, 128 + n / 64 % 64, 128 + n % 64]
  else [240 + n / 262144, 128 + n / 4096 % 64, 128 + n / 64 % 64, 128 + n % 64]

/-- Model of Python `str.encode()` (UTF-8). -/
def utf8Bytes (s : String) : List Nat := s.toList.flatMap utf8Ch

/-! ### SHA-256 (`hashlib.sha256`), words as `Nat` mod 2^32 -/

/-- Reduce to a 32-bit word. -/
def w32 (n : Nat) : Nat := n % 4294967296

/-- Right rotation of a 32-bit word. -/
def rotr32 (x n : Nat) : Nat := w32 ((x >>> n) ||| (x <<< (32 - n)))

/-- The 64 SHA-256 round constants. -/
def shaK : List Nat :=
  [1116352408, 1899447441, 3049323471, 3921009573, 961987163,
   1508970993, 2453635748, 2870763221, 3624381080, 310598401,
   607225278, 1426881987, 1925078388, 2162078206, 2614888103,
   3248222580, 3835390401, 4022224774, 264347078, 604807628,
   770255983, 1249150122, 1555081692, 1996064986, 2554220882,
   2821834349, 2952996808, 3210313671, 3336571891, 3584528711,
   113926993, 338241895, 666307205, 773529912, 1294757372,
   1396182291, 1695183700, 1986661051, 2177026350, 2456956037,
   2730485921, 2820302411, 3259730800, 3345764771, 3516065817,
   3600352804, 4094571909, 275423344, 430227734, 506948616,
   659060556, 883997877, 958139571, 1322822218, 1537002063,
   1747873779, 1955562222, 2024104815, 2227730452, 2361852424,
   2428436474, 2756734187, 3204031479, 3329325298]

/-- The SHA-256 compression state: eight 32-bit words. -/
structure Hash8 where
  a : Nat
  b : Nat
  c : Nat
  d : Nat
  e : Nat
  f : Nat
  g : Nat
  h : Nat

/-- Initial SHA-256 state (FIPS 180-4). -/
def shaInit : Hash8 :=
  ⟨1779033703, 3144134277, 1013904242, 2773480762,
   1359893119, 2600822924, 528734635, 1541459225⟩

/-- One message-schedule extension step: appends the next `W` word. -/
def schedStep (w : List Nat) : List Nat :=
  let n := w.length
  let x15 := w.getD (n - 15) 0
  let x2 := w.getD (n - 2) 0
  let s0 := w32 (rotr32 x15 7 ^^^ rotr32 x15 18 ^^^ (x15 >>> 3))
  let s1 := w32 (rotr32 x2 17 ^^^ rotr32 x2 19 ^^^ (x2 >>> 10))
  w ++ [w32 (w.getD (n - 16) 0 + s0 + w.getD (n - 7) 0 + s1)]

/-- One SHA-256 round over state `st` with round input `k + w`. -/
def shaRound (st : Hash8) (kw : Nat × Nat) : Hash8 :=
  let s1 := w32 (rotr32 st.e 6 ^^^ rotr32 st.e 11 ^^^ rotr32 st.e 25)
  let ch := w32 ((st.e &&& st.f) ^^^ ((st.e ^^^ 4294967295) &&& st.g))
  let t1 := w32 (st.h + s1 + ch + kw.1 + kw.2)
  let s0 := w32 (rotr32 st.a 2 ^^^ rotr32 st.a 13 ^^^ rotr32 st.a 22)
  let mj := w32 ((st.a &&& st.b) ^^^ (st.a &&& st.c) ^^^ (st.b &&& st.c))
  let t2 := w32 (s0 + mj)
  ⟨w32 (t1 + t2), st.a, st.b, st.c, w32 (st.d + t1), st.e, st.f, st.g⟩

/-- Compress one 16-word block into the running state. -/
def compressBlock (st : Hash8) (block : List Nat) : Hash8 :=
  let w := Nat.repeat schedStep 48 block
  let fin := (shaK.zip w).foldl shaRound st
  ⟨w32 (st.a + fin.a), w32 (st.b + fin.b), w32 (st.c + fin.c),
   w32 (st.d + fin.d), w32 (st.e + fin.e), w32 (st.f + fin.f),
   w32 (st.g + fin.g), w32 (st.h + fin.h)⟩

/-- Big-endian bytes of `n`, `cnt` bytes wide. -/
def bytesBE : Nat → Nat → List Nat
  | 0, _ => []
  | cnt + 1, n => bytesBE cnt (n / 256) ++ [n % 256]

/-- SHA-256 padding: `0x80`, zeros to 56 mod 64, then the bit length as
eight big-endian bytes. -/
def shaPad (m : List Nat) : List Nat :=
  let zeros := (120 - (m.length + 1) % 64) % 64
  m ++ [128] ++ List.replicate zeros 0 ++ bytesBE 8 (8 * m.length)

/-- Pack big-endian bytes into 32-bit words, four at a time. -/
def words4 : List Nat → List Nat
  | b0 :: b1 :: b2 :: b3 :: rest =>
      (((b0 * 256 + b1) * 256 + b2) * 256 + b3) :: words4 rest
  | _ => []

/-- Split a word list into 16-word blocks. -/
def blocks16 : List Nat → List (List Nat)
  | w0 :: w1 :: w2 :: w3 :: w4 :: w5 :: w6 :: w7 :: w8 :: w9 :: w10 ::
    w11 :: w12 :: w13 :: w14 :: w15 :: rest =>
      [w0, w1, w2, w3, w4, w5, w6, w7, w8, w9, w10, w11, w12, w13, w14, w15]
        :: blocks16 rest
  | _ => []

/-- Big-endian bytes of one 32-bit word. -/
def word4Bytes (w : Nat) : List Nat :=
  [w / 16777216 % 256, w / 65536 % 256, w / 256 % 256, w % 256]

/-- SHA-256 digest of a byte list, as 32 bytes. -/
def sha256 (m : List Nat) : List Nat :=
  let fin := (blocks16 (words4 (shaPad m))).foldl compressBlock shaInit
  [fin.a, fin.b, fin.c, fin.d, fin.e, fin.f, fin.g, fin.h].flatMap word4Bytes

/-- Lowercase hex digit for `n < 16`. -/
def hexCh (n : Nat) : Char :=
  if n < 10 then Char.ofNat (48 + n) else Char.ofNat (87 + n)

/-- Two lowercase hex digits of one byte. -/
def hexByte (b : Nat) : List Char := [hexCh (b / 16), hexCh (b % 16)]

/-- Model of `hashlib.sha256(...).hexdigest()`. -/
def sha256Hex (m : List Nat) : String := ⟨(sha256 m).flatMap hexByte⟩

/-! ### Key derivation (`CacheService._generate_cache_key`) -/

/-- The cache key: normalize the content, SHA-256 its UTF-8 bytes, and
join the category namespace and the hex digest with a colon.  The
source's default category argument is `"playstore"`. -/
def generateCacheKey (content : String) (cat : String := "playstore") : String :=
  cat ++ ":" ++ sha256Hex (utf8Bytes (pyNormalize content))

/-! ### JSON values -/

/-- JSON values as produced by `json.loads`.  Numbers are modelled as
integers: every numeric field the service serializes is integral in the
model (floating point is outside the embedding). -/
inductive Json where
  | jnull
  | jbool (b : Bool)
  | jint (n : Int)
  | jstr (s : String)
  | jarr (xs : List Json)
  | jobj (ms : List (String × Json))

/-! ### JSON printing (`json.dumps` with its default options) -/

/-- A `\uXXXX` escape for `n < 65536`. -/
def uEsc4 (n : Nat) : List Char :=
  ['\\', 'u', hexCh (n / 4096 % 16), hexCh (n / 256 % 16),
   hexCh (n / 16 % 16), hexCh (n % 16)]

/-- One character as `json.dumps` emits it inside a string literal
(default `ensure_ascii=True`): short escapes for quote, backslash and
the common control characters, printable ASCII verbatim, and `\uXXXX`
for everything else, astral characters as surrogate pairs. -/
def escChar (c : Char) : List Char :=
  if c.toNat = 34 then ['\\', '"']
  else if c.toNat = 92 then ['\\', '\\']
  else if c.toNat = 10 then ['\\', 'n']
  else if c.toNat = 13 then ['\\', 'r']
  else if c.toNat = 9 then ['\\', 't']
  else if c.toNat = 8 then ['\\', 'b']
  else if c.toNat = 12 then ['\\', 'f']
  else if 32 ≤ c.toNat ∧ c.toNat ≤ 126 then [c]
  else if c.toNat < 65536 then uEsc4 c.toNat
  else uEsc4 (55296 + (c.toNat - 65536) / 1024) ++
       uEsc4 (56320 + (c.toNat - 65536) % 1024)

/-- A JSON string literal: quote, escaped body, quote. -/
def printQStr (s : String) : List Char :=
  '"' :: (s.toList.flatMap escChar ++ ['"'])

/-- Decimal digits of `n`, most significant first; `fuel` bounds the
recursion (any `fuel > n` is enough). -/
def natDecAux : Nat → Nat → List Char
  | 0, _ => []
  | fuel + 1, n =>
      if n < 10 then [Char.ofNat (48 + n)]
      else natDecAux fuel (n / 10) ++ [Char.ofNat (48 + n % 10)]

/-- Decimal digits of a natural number. -/
def natDec (n : Nat) : List Char := natDecAux (n + 1) n

/-- Decimal form of an integer, as `str(int)` prints it. -/
def intDec (i : Int) : List Char :=
  if i < 0 then '-' :: natDec i.natAbs else natDec i.natAbs

/-- The JSON literals `true` and `false`. -/
def boolLit (b : Bool) : List Char :=
  if b then ['t', 'r', 'u', 'e'] else ['f', 'a', 'l', 's', 'e']

/-! ### JSON parsing (`json.loads`) -/

/-- JSON insignificant whitespace. -/
def isJWs (c : Char) : Bool :=
  c.toNat = 32 || c.toNat = 9 || c.toNat = 10 || c.toNat = 13

/-- Skip insignificant whitespace. -/
def skipJWs (cs : List Char) : List Char := cs.dropWhile isJWs

/-- An ASCII decimal digit. -/
def isDigitCh (c : Char) : Bool := 48 ≤ c.toNat && c.toNat ≤ 57

/-- Value of one hex digit (both cases), if any. -/
def hexDVal (c : Char) : Option Nat :=
  if 48 ≤ c.toNat ∧ c.toNat ≤ 57 then some (c.toNat - 48)
  else if 97 ≤ c.toNat ∧ c.toNat ≤ 102 then some (c.toNat - 87)
  else if 65 ≤ c.toNat ∧ c.toNat ≤ 70 then some (c.toNat - 55)
  else none

/-- Value of a four-hex-digit group, if all four digits parse. -/
def hex4 (a b c d : Char) : Option Nat :=
  match hexDVal a, hexDVal b, hexDVal c, hexDVal d with
  | some x, some y, some z, some w => some (((x * 16 + y) * 16 + z) * 16 + w)
  | _, _, _, _ => none

/-- The single-character escapes `json.loads` accepts. -/
def shortEsc (c : Char) : Option Char :=
  if c.toNat = 34 then some '"'
  else if c.toNat = 92 then some '\\'
  else if c.toNat = 47 then some '/'
  else if c.toNat = 110 then some (Char.ofNat 10)
  else if c.toNat = 116 then some (Char.ofNat 9)
  else if c.toNat = 114 then some (Char.ofNat 13)
  else if c.toNat = 98 then some (Char.ofNat 8)
  else if c.toNat = 102 then some (Char.ofNat 12)
  else none

/-- Four hex digits after a `\\u`, if present. -/
def decodeU : List Char → Option (Nat × List Char)
  | a :: b :: c :: d :: rest => (hex4 a b c d).map (fun n => (n, rest))
  | _ => none

/-- Continue a high surrogate with its decoded low `\\uXXXX` group,
recombining the pair as `json.loads` does. -/
def sPair (n : Nat) : Option (Nat × List Char) → Option (Char × List Char)
  | some (m, rest4) =>
      if 56320 ≤ m ∧ m ≤ 57343 then
        some (Char.ofNat (65536 + (n - 55296) * 1024 + (m - 56320)), rest4)
      else none
  | none => none

/-- After a high surrogate, expect `\\u` and the low-surrogate group. -/
def sLow (n : Nat) : List Char → Option (Char × List Char)
  | e1 :: e2 :: rest3 =>
      if e1.toNat = 92 ∧ e2.toNat = 117 then sPair n (decodeU rest3) else none
  | _ => none

/-- Interpret a decoded `\\uXXXX` value: recombine surrogate pairs; a
lone surrogate is rejected (Lean characters are scalar values). -/
def sHead : Option (Nat × List Char) → Option (Char × List Char)
  | none => none
  | some (n, rest2) =>
      if 55296 ≤ n ∧ n ≤ 56319 then sLow n rest2
      else if 56320 ≤ n ∧ n ≤ 57343 then none
      else some (Char.ofNat n, rest2)

/-- Decode a `\\uXXXX` escape after the `\\u`. -/
def decodeUEsc (cs : List Char) : Option (Char × List Char) :=
  sHead (decodeU cs)

/-- Decode one escape sequence after the backslash. -/
def parseEsc : List Char → Option (Char × List Char)
  | [] => none
  | e :: rest1 =>
      if e.toNat = 117 then decodeUEsc rest1
      else (shortEsc e).map (fun ch => (ch, rest1))

/-- Decode one string character (escaped or verbatim); `none` on the
closing quote or invalid input. -/
def parseOneChar : List Char → Option (Char × List Char)
  | [] => none
  | c :: rest =>
      if c.toNat = 34 then none
      else if c.toNat = 92 then parseEsc rest
      else some (c, rest)

/-- Parse a JSON string body after the opening quote, one character at a
time; returns the decoded characters and the input after the closing
quote.  The fuel only bounds the loop. -/
def parseStrBodyAux : Nat → List Char → Option (List Char × List Char)
  | 0, _ => none
  | fuel + 1, cs =>
    match cs with
    | [] => none
    | c :: rest =>
      if c.toNat = 34 then some ([], rest)
      else
        (parseOneChar (c :: rest)).bind (fun chr =>
          (parseStrBodyAux fuel chr.2).map (fun p => (chr.1 :: p.1, p.2)))

/-- Parse a JSON string body after the opening quote. -/
def parseStrBody (cs : List Char) : Option (List Char × List Char) :=
  parseStrBodyAux (cs.length + 1) cs

/-- Numeric value of a digit run. -/
def decVal (ds : List Char) : Nat :=
  ds.foldl (fun a c => a * 10 + (c.toNat - 48)) 0

/-- Parse an unsigned integer token.  A following `.`, `e` or `E` would
start a float, which the model does not cover, so it is rejected. -/
def parseNatTok (cs : List Char) : Option (Nat × List Char) :=
  match cs.span isDigitCh with
  | ([], _) => none
  | (ds, rest) =>
      match rest with
      | r :: _ =>
          if r.toNat = 46 || r.toNat = 101 || r.toNat = 69 then none
          else some (decVal ds, rest)
      | [] => some (decVal ds, rest)

/-- Parse an integer token with an optional leading minus sign. -/
def parseIntTok : List Char → Option (Int × List Char)
  | [] => none
  | c :: rest =>
      if c.toNat = 45 then (parseNatTok rest).map (fun p => (-(p.1 : Int), p.2))
      else (parseNatTok (c :: rest)).map (fun p => ((p.1 : Int), p.2))

/-- The remainder after a number token cannot extend it: empty, or
headed by something that is neither a digit nor `.`/`e`/`E`. -/
def numStop : List Char → Bool
  | [] => true
  | c :: _ => !(isDigitCh c || c.toNat = 46 || c.toNat = 101 || c.toNat = 69)

mutual

/-- Parse one JSON value (fuel-bounded recursive descent). -/
def parseVal : Nat → List Char → Option (Json × List Char)
  | 0, _ => none
  | fuel + 1, cs =>
    match skipJWs cs with
    | [] => none
    | c :: r =>
      if c.toNat = 110 then
        match r with
        | u :: l1 :: l2 :: r2 =>
            if u.toNat = 117 ∧ l1.toNat = 108 ∧ l2.toNat = 108 then
              some (.jnull, r2)
            else none
        | _ => none
      else if c.toNat = 116 then
        match r with
        | x1 :: x2 :: x3 :: r2 =>
            if x1.toNat = 114 ∧ x2.toNat = 117 ∧ x3.toNat = 101 then
              some (.jbool true, r2)
            else none
        | _ => none
      else if c.toNat = 102 then
        match r with
        | x1 :: x2 :: x3 :: x4 :: r2 =>
            if x1.toNat = 97 ∧ x2.toNat = 108 ∧ x3.toNat = 115 ∧
               x4.toNat = 101 then
              some (.jbool false, r2)
            else none
        | _ => none
      else if c.toNat = 34 then
        (parseStrBody r).map (fun p => (.jstr ⟨p.1⟩, p.2))
      else if c.toNat = 91 then
        match skipJWs r with
        | [] => none
        | d :: r2 =>
            if d.toNat = 93 then some (.jarr [], r2)
            else (parseItems fuel (d :: r2)).map (fun p => (.jarr p.1, p.2))
      else if c.toNat = 123 then
        match skipJWs r with
        | [] => none
        | d :: r2 =>
            if d.toNat = 125 then some (.jobj [], r2)
            else (parseMems fuel (d :: r2)).map (fun p => (.jobj p.1, p.2))
      else if c.toNat = 45 || isDigitCh c then
        (parseIntTok (c :: r)).map (fun p => (.jint p.1, p.2))
      else none

/-- Parse one or more comma-separated array elements and the closing
bracket. -/
def parseItems : Nat → List Char → Option (List Json × List Char)
  | 0, _ => none
  | fuel + 1, cs =>
    (parseVal fuel cs).bind (fun vr =>
      match skipJWs vr.2 with
      | [] => none
      | d :: r2 =>
          if d.toNat = 44 then
            (parseItems fuel r2).map (fun p => (vr.1 :: p.1, p.2))
          else if d.toNat = 93 then some ([vr.1], r2)
          else none)

/-- Parse one or more comma-separated object members and the closing
brace. -/
def parseMems : Nat → List Char → Option (List (String × Json) × List Char)
  | 0, _ => none
  | fuel + 1, cs =>
    match skipJWs cs with
    | [] => none
    | q :: r =>
      if q.toNat = 34 then
        (parseStrBody r).bind (fun kr =>
          match skipJWs kr.2 with
          | [] => none
          | col :: r2 =>
            if col.toNat = 58 then
              (parseVal fuel r2).bind (fun vr =>
                match skipJWs vr.2 with
                | [] => none
                | d :: r4 =>
                  if d.toNat = 44 then
                    (parseMems fuel r4).map
                      (fun p => ((⟨kr.1⟩, vr.1) :: p.1, p.2))
                  else if d.toNat = 125 then some ([(⟨kr.1⟩, vr.1)], r4)
                  else none)
            else none)
      else none

end

/-- Accept a parse outcome as `json.loads` does: one value, then only
whitespace. -/
def loadsFin : Option (Json × List Char) → Except String Json
  | some (j, r) => if (skipJWs r).isEmpty then .ok j else .error "Extra data"
  | none => .error "JSONDecodeError"

/-- Model of `json.loads`: parse one value, then require only whitespace
to follow. -/
def jsonLoads (s : String) : Except String Json :=
  loadsFin (parseVal (s.toList.length + 1) s.toList)

/-! ### Base64 (`base64.b64encode` / `b64decode`) -/

/-- The base64 alphabet character for a sextet `n < 64`. -/
def b64Ch (n : Nat) : Char :=
  if n < 26 then Char.ofNat (65 + n)
  else if n < 52 then Char.ofNat (71 + n)
  else if n < 62 then Char.ofNat (n - 4)
  else if n = 62 then '+' else '/'

/-- Standard base64 encoding of a byte list, with `=` padding. -/
def b64e : List Nat → List Char
  | [] => []
  | [x] => [b64Ch (x / 4), b64Ch (x % 4 * 16), '=', '=']
  | [x, y] => [b64Ch (x / 4), b64Ch (x % 4 * 16 + y / 16), b64Ch (y % 16 * 4), '=']
  | x :: y :: z :: rest =>
      b64Ch (x / 4) :: b64Ch (x % 4 * 16 + y / 16) ::
      b64Ch (y % 16 * 4 + z / 64) :: b64Ch (z % 64) :: b64e rest

/-- Model of `base64.b64encode(...).decode()` as a string. -/
def b64encodeStr (bytes : List Nat) : String := ⟨b64e bytes⟩

/-- Sextet value of a base64 alphabet character, if any. -/
def b64DVal (c : Char) : Option Nat :=
  if 65 ≤ c.toNat ∧ c.toNat ≤ 90 then some (c.toNat - 65)
  else if 97 ≤ c.toNat ∧ c.toNat ≤ 122 then some (c.toNat - 71)
  else if 48 ≤ c.toNat ∧ c.toNat ≤ 57 then some (c.toNat + 4)
  else if c.toNat = 43 then some 62
  else if c.toNat = 47 then some 63
  else none

/-- Decode base64 four characters at a time, honouring `=` padding.
Trailing bits of the last sextet are ignored, as Python's decoder
ignores them. -/
def b64Quads : List Char → Option (List Nat)
  | [] => some []
  | a :: b :: c :: d :: rest =>
      (b64DVal a).bind (fun x =>
        (b64DVal b).bind (fun y =>
          if c.toNat = 61 then
            if d.toNat = 61 ∧ rest = [] then some [x * 4 + y / 16] else none
          else
            (b64DVal c).bind (fun z =>
              if d.toNat = 61 then
                if rest = [] then some [x * 4 + y / 16, y % 16 * 16 + z / 4]
                else none
              else
                (b64DVal d).bind (fun w =>
                  (b64Quads rest).map (fun bs =>
                    (x * 4 + y / 16) :: (y % 16 * 16 + z / 4) ::
                    (z % 4 * 64 + w) :: bs)))))
  | _ => none

/-- Model of `base64.b64decode` (default validation: characters outside
the alphabet and padding are discarded, then the length must be a
multiple of four). -/
def b64decodeStr (s : String) : Option (List Nat) :=
  b64Quads (s.toList.filter (fun c => (b64DVal c).isSome || c.toNat = 61))

/-! ### The structured result

Modelled from the spec: the class `ProcessingResponse` (and its item
type `RequirementResult`) lives in `app/schemas/models.py`, which is not
part of the sources; the spec describes the structured result as a
record of counts, per-item classification results and timing, serialized
by field name.  Timing is modelled as integral milliseconds; the
floating-point score fields are outside the embedding. -/

/-- Modelled from the spec: one per-item classification result (the
original comment and whether it was classified as a requirement). -/
structure RequirementResult where
  comment : String
  is_requirement : Bool
deriving DecidableEq

/-- Modelled from the spec: the pipeline's structured result record —
source kind, counts, timing, per-item results. -/
structure ProcessingResponse where
  source_type : String
  total_comments : Int
  valid_requirements : Int
  processing_time_ms : Int
  requirements : List RequirementResult
deriving DecidableEq

/-! ### Serialization of the cached blob (`_cache_result_generic`) -/

/-- `json.dumps` output for one item record (`model_dump` field order,
default separators). -/
def dumpItem (it : RequirementResult) : List Char :=
  '\x7b' :: (printQStr "comment" ++ ':' :: ' ' :: printQStr it.comment ++
    ',' :: ' ' :: printQStr "is_requirement" ++ ':' :: ' ' ::
    boolLit it.is_requirement ++ ['\x7d'])

/-- `json.dumps` output for a list of item records (between the array
brackets). -/
def dumpItems : List RequirementResult → List Char
  | [] => []
  | [x] => dumpItem x
  | x :: xs => dumpItem x ++ ',' :: ' ' :: dumpItems xs

/-- `json.dumps` output for `response.model_dump()`. -/
def dumpResp (r : ProcessingResponse) : List Char :=
  '\x7b' :: (printQStr "source_type" ++ ':' :: ' ' :: printQStr r.source_type ++
    ',' :: ' ' :: printQStr "total_comments" ++ ':' :: ' ' ::
    intDec r.total_comments ++
    ',' :: ' ' :: printQStr "valid_requirements" ++ ':' :: ' ' ::
    intDec r.valid_requirements ++
    ',' :: ' ' :: printQStr "processing_time_ms" ++ ':' :: ' ' ::
    intDec r.processing_time_ms ++
    ',' :: ' ' :: printQStr "requirements" ++ ':' :: ' ' ::
    '[' :: dumpItems r.requirements ++ ']' :: ['\x7d'])

/-- The serialized cache entry: `json.dumps` of the two-field dict the
service builds (`response`, then `pdf_base64`). -/
def serializeBlob (r : ProcessingResponse) (pdf : List Nat) : String :=
  ⟨'\x7b' :: (printQStr "response" ++ ':' :: ' ' :: dumpResp r ++
    ',' :: ' ' :: printQStr "pdf_base64" ++ ':' :: ' ' ::
    printQStr (b64encodeStr pdf) ++ ['\x7d'])⟩

/-- The printed form of an object's members (`", "`-separated
`"key": value` pairs), from a list of (key, printed value, JSON value)
triples. -/
def memberRun : List (String × List Char × Json) → List Char
  | [] => []
  | [sp] => printQStr sp.1 ++ ':' :: ' ' :: sp.2.1
  | sp :: rest => printQStr sp.1 ++ ':' :: ' ' :: sp.2.1 ++ ',' :: ' ' ::
      memberRun rest

/-- The printed form of an array's elements, from (printed value, JSON
value) pairs. -/
def itemRun : List (List Char × Json) → List Char
  | [] => []
  | [v] => v.1
  | v :: rest => v.1 ++ ',' :: ' ' :: itemRun rest

/-- A printed value parses back to its JSON value at any fuel of at
least `N`, whenever the remainder cannot extend it. -/
def ValParsesN (N : Nat) (printed : List Char) (j : Json) : Prop :=
  ∀ fuel rest, N ≤ fuel → numStop rest = true →
    parseVal fuel (printed ++ rest) = some (j, rest)

/-- The JSON value `model_dump()` yields for one item record. -/
def itemDump (it : RequirementResult) : Json :=
  .jobj [("comment", .jstr it.comment),
         ("is_requirement", .jbool it.is_requirement)]

/-- The JSON value `model_dump()` yields for the response record. -/
def respDump (r : ProcessingResponse) : Json :=
  .jobj [("source_type", .jstr r.source_type),
         ("total_comments", .jint r.total_comments),
         ("valid_requirements", .jint r.valid_requirements),
         ("processing_time_ms", .jint r.processing_time_ms),
         ("requirements", .jarr (r.requirements.map itemDump))]

/-- The JSON value of the whole serialized cache entry. -/
def blobDump (r : ProcessingResponse) (pdf : List Nat) : Json :=
  .jobj [("response", respDump r),
         ("pdf_base64", .jstr (b64encodeStr pdf))]

/-! ### Deserialization (`_get_cached_result_generic` after a hit) -/

/-- Dictionary lookup on a parsed JSON object: as in a Python dict built
by `json.loads`, a repeated key keeps its last value. -/
def dictGetLast (ms : List (String × Json)) (k : String) : Option Json :=
  (ms.reverse.find? (fun p => p.1 == k)).map (fun p => p.2)

/-- Reconstruct one item record, validating field types. -/
def itemFromJson : Json → Except String RequirementResult
  | .jobj ms =>
      (match dictGetLast ms "comment", dictGetLast ms "is_requirement" with
       | some (.jstr c), some (.jbool b) => .ok ⟨c, b⟩
       | _, _ => .error "ValidationError")
  | _ => .error "ValidationError"

/-- Combine one reconstructed item with the rest of the list,
propagating the first failure. -/
def applyItem : Except String RequirementResult →
    Except String (List RequirementResult) →
    Except String (List RequirementResult)
  | .ok it, .ok its => .ok (it :: its)
  | .error e, _ => .error e
  | .ok _, .error e => .error e

/-- Reconstruct a list of item records. -/
def itemsFromJson : List Json → Except String (List RequirementResult)
  | [] => .ok []
  | j :: js => applyItem (itemFromJson j) (itemsFromJson js)

/-- Assemble the response record once the item list is reconstructed. -/
def withItems (st : String) (tc vr pt : Int) :
    Except String (List RequirementResult) → Except String ProcessingResponse
  | .ok its => .ok ⟨st, tc, vr, pt, its⟩
  | .error e => .error e

/-- Reconstruct `ProcessingResponse(**data['response'])`, validating
field presence and types as the pydantic constructor does. -/
def respFromJson : Json → Except String ProcessingResponse
  | .jobj ms =>
      (match dictGetLast ms "source_type", dictGetLast ms "total_comments",
             dictGetLast ms "valid_requirements",
             dictGetLast ms "processing_time_ms",
             dictGetLast ms "requirements" with
       | some (.jstr st), some (.jint tc), some (.jint vr), some (.jint pt),
         some (.jarr rq) => withItems st tc vr pt (itemsFromJson rq)
       | _, _, _, _, _ => .error "ValidationError")
  | _ => .error "ValidationError"

/-- Attach the decoded artifact bytes to the reconstructed record. -/
def withBytes (resp : ProcessingResponse) :
    Option (List Nat) → Except String (ProcessingResponse × List Nat)
  | some bytes => .ok (resp, bytes)
  | none => .error "binascii.Error"

/-- Extract the `response` value and the `pdf_base64` text from the
parsed blob, then reconstruct both; each failure mode (missing key,
wrong type, invalid data) is an error the operation boundary turns into
a miss. -/
def blobRebuild : Json → Except String (ProcessingResponse × List Nat)
  | .jobj ms =>
      (match dictGetLast ms "response", dictGetLast ms "pdf_base64" with
       | some respJ, some (.jstr t) =>
           (respFromJson respJ).bind
             (fun resp => withBytes resp (b64decodeStr t))
       | some _, some _ => .error "TypeError"
       | _, _ => .error "KeyError")
  | _ => .error "TypeError"

/-- The deserialization the lookup path performs on a stored blob:
`json.loads`, reconstruct the response record, base64-decode the
artifact. -/
def deserializeBlob (s : String) :
    Except String (ProcessingResponse × List Nat) :=
  (jsonLoads s).bind blobRebuild

/-! ### The Redis model -/

/-- One stored entry: the serialized blob and its absolute expiry time
(Redis enforces TTL expiry itself). -/
structure EntryV where
  val : String
  expiresAt : Nat
deriving DecidableEq

/-- The backing store: reachable flag, entries, and reported memory use.
When `reachable` is false every client call raises (times out), which
the model renders as an `Except` error. -/
structure RedisState where
  reachable : Bool
  data : List (String × EntryV)
  usedMemory : Nat
deriving DecidableEq

/-- First entry stored under a key, if any. -/
def findEntry (d : List (String × EntryV)) (k : String) : Option EntryV :=
  (d.find? (fun p => p.1 == k)).map (fun p => p.2)

/-- An entry is live while its expiry lies in the future. -/
def liveAt (now : Nat) (e : EntryV) : Bool := decide (now < e.expiresAt)

/-- The value of an entry if it is live. -/
def getLive (now : Nat) : Option EntryV → Option String
  | some e => if liveAt now e then some e.val else none
  | none => none

/-- `GET key`: the stored value if present and unexpired. -/
def redisGet (rs : RedisState) (now : Nat) (k : String) :
    Except String (Option String) :=
  if rs.reachable then .ok (getLive now (findEntry rs.data k))
  else .error "ConnectionError"

/-- `SETEX key ttl value`: replace any prior entry and reset its TTL. -/
def redisSetex (rs : RedisState) (now : Nat) (k : String) (ttl : Nat)
    (v : String) : Except String RedisState :=
  if rs.reachable then
    .ok ⟨rs.reachable, (k, ⟨v, now + ttl⟩) :: rs.data.filter (fun p => p.1 != k),
         rs.usedMemory⟩
  else .error "ConnectionError"

/-- How many live entries `DEL` removes under one key. -/
def delCount (now : Nat) : Option EntryV → Nat
  | some e => if liveAt now e then 1 else 0
  | none => 0

/-- `DEL key`: remove the key, reporting whether a live entry existed. -/
def redisDel (rs : RedisState) (now : Nat) (k : String) :
    Except String (Nat × RedisState) :=
  if rs.reachable then
    .ok (delCount now (findEntry rs.data k),
         ⟨rs.reachable, rs.data.filter (fun p => p.1 != k), rs.usedMemory⟩)
  else .error "ConnectionError"

/-- `KEYS pat*`: all live keys starting with `pat`. -/
def redisKeys (rs : RedisState) (now : Nat) (pat : String) :
    Except String (List String) :=
  if rs.reachable then
    .ok ((rs.data.filter
            (fun p => pat.data.isPrefixOf p.1.data && liveAt now p.2)).map
          (fun p => p.1))
  else .error "ConnectionError"

/-- `DEL k1 k2 ...`: bulk delete, reporting how many live entries went. -/
def redisDelMany (rs : RedisState) (now : Nat) (ks : List String) :
    Except String (Nat × RedisState) :=
  if rs.reachable then
    .ok ((rs.data.filter (fun p => ks.contains p.1 && liveAt now p.2)).length,
         ⟨rs.reachable, rs.data.filter (fun p => !ks.contains p.1),
          rs.usedMemory⟩)
  else .error "ConnectionError"

/-- `INFO memory`: the store's reported memory use in bytes. -/
def redisInfoMem (rs : RedisState) : Except String Nat :=
  if rs.reachable then .ok rs.usedMemory else .error "ConnectionError"

/-! ### The cache service operations -/

/-- Cache TTL: 7 days. -/
def CACHE_TTL_SECONDS : Nat := 7 * 24 * 60 * 60

/-- After the `GET`: absent is a miss, a hit is deserialized (failures
propagate to the operation boundary). -/
def hitOrMiss : Option String →
    Except String (Option (ProcessingResponse × List Nat))
  | none => .ok none
  | some s => (deserializeBlob s).map (fun rb => some rb)

/-- The `except` boundary of the lookup: any error becomes a miss. -/
def unwrapLookup : Except String (Option (ProcessingResponse × List Nat)) →
    Option (ProcessingResponse × List Nat)
  | .ok r => r
  | .error _ => none

/-- `_get_cached_result_generic`: disabled short-circuit, then the
`try` body (derive key, `GET`, deserialize), with every failure caught
and turned into a miss. -/
def getCachedResultGeneric (enabled : Bool) (rs : RedisState) (now : Nat)
    (content cat : String) : Option (ProcessingResponse × List Nat) :=
  if enabled then
    unwrapLookup
      ((redisGet rs now (generateCacheKey content cat)).bind hitOrMiss)
  else none

/-- `get_cached_result`: the PlayStore URL instance. -/
def getCachedResult (enabled : Bool) (rs : RedisState) (now : Nat)
    (url : String) : Option (ProcessingResponse × List Nat) :=
  getCachedResultGeneric enabled rs now url "playstore"

/-- `_cache_result_generic`: disabled short-circuit, then serialize and
`SETEX`, reporting success; any failure leaves the store unchanged and
reports `false`. -/
def unwrapStore (rs : RedisState) : Except String RedisState →
    Bool × RedisState
  | .ok rs2 => (true, rs2)
  | .error _ => (false, rs)

def cacheResultGeneric (enabled : Bool) (rs : RedisState) (now : Nat)
    (content cat : String) (response : ProcessingResponse) (pdf : List Nat) :
    Bool × RedisState :=
  if enabled then
    unwrapStore rs
      (redisSetex rs now (generateCacheKey content cat) CACHE_TTL_SECONDS
        (serializeBlob response pdf))
  else (false, rs)

/-- `cache_result`: the PlayStore URL instance. -/
def cacheResult (enabled : Bool) (rs : RedisState) (now : Nat) (url : String)
    (response : ProcessingResponse) (pdf : List Nat) : Bool × RedisState :=
  cacheResultGeneric enabled rs now url "playstore" response pdf

/-- `invalidate_cache`: derives the key with the default `"playstore"`
category and deletes it; `true` exactly on Redis reporting a deletion. -/
def unwrapDel (rs : RedisState) : Except String (Nat × RedisState) →
    Bool × RedisState
  | .ok (n, rs2) => if n = 0 then (false, rs2) else (true, rs2)
  | .error _ => (false, rs)

def invalidateCache (enabled : Bool) (rs : RedisState) (now : Nat)
    (url : String) : Bool × RedisState :=
  if enabled then unwrapDel rs (redisDel rs now (generateCacheKey url))
  else (false, rs)

/-- `clear_all_cache`: list the `playstore:` keys; if any, bulk-delete
them and report `true`, else report `false`. -/
def clearKeys (rs : RedisState) (now : Nat) (ks : List String) :
    Except String (Bool × RedisState) :=
  if ks.isEmpty then .ok (false, rs)
  else (redisDelMany rs now ks).map (fun dr => (true, dr.2))

def unwrapClear (rs : RedisState) : Except String (Bool × RedisState) →
    Bool × RedisState
  | .ok p => p
  | .error _ => (false, rs)

def clearAllCache (enabled : Bool) (rs : RedisState) (now : Nat) :
    Bool × RedisState :=
  if enabled then
    unwrapClear rs ((redisKeys rs now "playstore:").bind (clearKeys rs now))
  else (false, rs)

/-- Two-decimal megabyte rendering of a byte count, approximating the
source's float formatting with integer arithmetic (rounding to nearest
hundredth of a MiB). -/
def formatMB (n : Nat) : String :=
  let cent := (n * 100 + 524288) / 1048576
  ⟨natDec (cent / 100)⟩ ++ "." ++
    (if cent % 100 < 10 then "0" else "") ++ ⟨natDec (cent % 100)⟩ ++ " MB"

/-- `get_cache_stats`: the canned disabled report, the full report on
success, or the partial `enabled`/`error` report when gathering stats
fails. -/
def statsFin : Except String (List String × Nat) → List (String × Json)
  | .ok (ks, mem) =>
      [("enabled", .jbool true), ("total_keys", .jint ks.length),
       ("memory_used_bytes", .jint mem),
       ("memory_used", .jstr (formatMB mem))]
  | .error e => [("enabled", .jbool true), ("error", .jstr e)]

def getCacheStats (enabled : Bool) (rs : RedisState) (now : Nat) :
    List (String × Json) :=
  if enabled then
    statsFin
      ((redisKeys rs now "playstore:").bind
        (fun ks => (redisInfoMem rs).map (fun mem => (ks, mem))))
  else
    [("enabled", .jbool false), ("total_keys", .jint 0),
     ("memory_used", .jstr "0 MB")]

/-! ### Derived notions used by the statements and proofs -/

/-- A lowercase hex digit, as SHA-256 hex digests consist of. -/
def isHexDigitCh (c : Char) : Bool :=
  (48 ≤ c.toNat && c.toNat ≤ 57) || (97 ≤ c.toNat && c.toNat ≤ 102)

/-- The live keys in the `playstore` namespace (what `KEYS playstore:*`
returns on a reachable store). -/
def livePlayKeys (rs : RedisState) (now : Nat) : List String :=
  (rs.data.filter
    (fun p => "playstore:".data.isPrefixOf p.1.data && liveAt now p.2)).map
    (fun p => p.1)

end ExtractReq

namespace ExtractReq

/-! ### Character and digit lemmas -/

theorem toNat_ofNat_valid (n : Nat) (h : n.isValidChar) :
    (Char.ofNat n).toNat = n := by
  have hlt : n < 1114112 := by
    rcases h with h | ⟨_, h2⟩
    · omega
    · exact h2
  simp only [Char.ofNat, dif_pos h, Char.ofNatAux, Char.toNat, UInt32.toNat]
  simp [BitVec.toNat_ofNatLt]

theorem toNat_ofNat_lt (n : Nat) (h : n < 55296) : (Char.ofNat n).toNat = n :=
  toNat_ofNat_valid n (Or.inl h)

theorem ofNat_toNat_self (c : Char) : Char.ofNat c.toNat = c := by
  apply Char.ext
  apply UInt32.ext
  exact toNat_ofNat_valid _ c.valid

theorem isDigitCh_iff (c : Char) :
    isDigitCh c = true ↔ 48 ≤ c.toNat ∧ c.toNat ≤ 57 := by
  simp [isDigitCh]

theorem digit_toNat (k : Nat) (h : k < 10) :
    (Char.ofNat (48 + k)).toNat = 48 + k :=
  toNat_ofNat_lt _ (by omega)

theorem isDigitCh_digit (k : Nat) (h : k < 10) :
    isDigitCh (Char.ofNat (48 + k)) = true := by
  rw [isDigitCh_iff, digit_toNat k h]
  omega

/-! ### Decimal printing and its inverse -/

theorem natDecAux_ne_nil : ∀ fuel n, n < fuel → natDecAux fuel n ≠ [] := by
  intro fuel
  induction fuel with
  | zero => intro n h; omega
  | succ f ih =>
      intro n h
      simp only [natDecAux]
      by_cases h10 : n < 10
      · simp [h10]
      · simp [h10]

theorem natDecAux_digits : ∀ fuel n, n < fuel →
    ∀ c ∈ natDecAux fuel n, isDigitCh c = true := by
  intro fuel
  induction fuel with
  | zero => intro n h; omega
  | succ f ih =>
      intro n h c hc
      simp only [natDecAux] at hc
      by_cases h10 : n < 10
      · rw [if_pos h10] at hc
        simp only [List.mem_singleton] at hc
        subst hc
        exact isDigitCh_digit n h10
      · rw [if_neg h10] at hc
        rcases List.mem_append.mp hc with hl | hr
        · exact ih (n / 10) (by omega) c hl
        · simp only [List.mem_singleton] at hr
          subst hr
          exact isDigitCh_digit (n % 10) (by omega)

theorem decVal_natDecAux : ∀ fuel n, n < fuel →
    decVal (natDecAux fuel n) = n := by
  intro fuel
  induction fuel with
  | zero => intro n h; omega
  | succ f ih =>
      intro n h
      simp only [natDecAux]
      by_cases h10 : n < 10
      · rw [if_pos h10]
        simp [decVal, digit_toNat n h10]
      · rw [if_neg h10]
        simp only [decVal, List.foldl_append, List.foldl_cons, List.foldl_nil]
        have := ih (n / 10) (by omega)
        simp only [decVal] at this
        rw [this, digit_toNat (n % 10) (by omega)]
        omega

theorem natDec_ne_nil (n : Nat) : natDec n ≠ [] :=
  natDecAux_ne_nil (n + 1) n (Nat.lt_succ_self n)

theorem natDec_digits (n : Nat) : ∀ c ∈ natDec n, isDigitCh c = true :=
  natDecAux_digits (n + 1) n (Nat.lt_succ_self n)

theorem decVal_natDec (n : Nat) : decVal (natDec n) = n :=
  decVal_natDecAux (n + 1) n (Nat.lt_succ_self n)

theorem natDec_cons (n : Nat) :
    ∃ c t, natDec n = c :: t ∧ isDigitCh c = true := by
  cases h : natDec n with
  | nil => exact absurd h (natDec_ne_nil n)
  | cons c t =>
      exact ⟨c, t, rfl, natDec_digits n c (h ▸ List.mem_cons_self c t)⟩

/-! ### Digit-run splitting -/

theorem takeWhile_digits_append (ds rest : List Char)
    (hds : ∀ c ∈ ds, isDigitCh c = true)
    (hrest : numStop rest = true) :
    (ds ++ rest).takeWhile isDigitCh = ds := by
  induction ds with
  | nil =>
      cases rest with
      | nil => rfl
      | cons r t =>
          simp only [numStop, Bool.not_eq_true', Bool.or_eq_false_iff] at hrest
          simp [List.takeWhile, hrest.1.1.1]
  | cons c t ih =>
      have hc := hds c (List.mem_cons_self c t)
      simp [List.takeWhile, hc, ih (fun x hx => hds x (List.mem_cons_of_mem c hx))]

theorem dropWhile_digits_append (ds rest : List Char)
    (hds : ∀ c ∈ ds, isDigitCh c = true)
    (hrest : numStop rest = true) :
    (ds ++ rest).dropWhile isDigitCh = rest := by
  induction ds with
  | nil =>
      cases rest with
      | nil => rfl
      | cons r t =>
          simp only [numStop, Bool.not_eq_true', Bool.or_eq_false_iff] at hrest
          simp [List.dropWhile, hrest.1.1.1]
  | cons c t ih =>
      have hc := hds c (List.mem_cons_self c t)
      simp [List.dropWhile, hc, ih (fun x hx => hds x (List.mem_cons_of_mem c hx))]

theorem span_digits_append (ds rest : List Char)
    (hds : ∀ c ∈ ds, isDigitCh c = true)
    (hrest : numStop rest = true) :
    (ds ++ rest).span isDigitCh = (ds, rest) := by
  rw [List.span_eq_take_drop, takeWhile_digits_append ds rest hds hrest,
      dropWhile_digits_append ds rest hds hrest]

/-! ### Number token round trip -/

theorem parseNatTok_append (n : Nat) (rest : List Char)
    (h : numStop rest = true) :
    parseNatTok (natDec n ++ rest) = some (n, rest) := by
  obtain ⟨c, t, hct, hc⟩ := natDec_cons n
  have hspan : (natDec n ++ rest).span isDigitCh = (natDec n, rest) :=
    span_digits_append _ _ (natDec_digits n) h
  rw [parseNatTok, hspan, hct]
  cases rest with
  | nil => simp [← hct, decVal_natDec]
  | cons r tr =>
      simp only [numStop, Bool.not_eq_true', Bool.or_eq_false_iff] at h
      have h46 : ¬(r.toNat = 46) := by
        intro hx; exact absurd hx (by simpa using h.1.1.2)
      have h101 : ¬(r.toNat = 101) := by
        intro hx; exact absurd hx (by simpa using h.1.2)
      have h69 : ¬(r.toNat = 69) := by
        intro hx; exact absurd hx (by simpa using h.2)
      simp [h46, h101, h69, ← hct, decVal_natDec]

theorem parseIntTok_append (i : Int) (rest : List Char)
    (h : numStop rest = true) :
    parseIntTok (intDec i ++ rest) = some (i, rest) := by
  by_cases hneg : i < 0
  · have : intDec i ++ rest = '-' :: (natDec i.natAbs ++ rest) := by
      simp [intDec, hneg]
    rw [this, parseIntTok]
    simp only [show ('-').toNat = 45 from rfl, if_pos rfl]
    rw [parseNatTok_append i.natAbs rest h]
    have habs : -(i.natAbs : Int) = i := by omega
    simp [habs, abs_of_neg hneg]
  · obtain ⟨c, t, hct, hc⟩ := natDec_cons i.natAbs
    have harg : intDec i ++ rest = c :: (t ++ (rest : List Char)) := by
      simp [intDec, hneg, hct]
    rw [harg, parseIntTok]
    have hc45 : ¬(c.toNat = 45) := by
      rw [isDigitCh_iff] at hc
      omega
    rw [if_neg hc45]
    have : c :: (t ++ rest) = natDec i.natAbs ++ rest := by
      simp [hct]
    rw [this, parseNatTok_append i.natAbs rest h]
    have habs : (i.natAbs : Int) = i := by omega
    simp [habs]

end ExtractReq


namespace ExtractReq

/-! ### Hex escapes and the string codec round trip -/

theorem toNat_lt_char (c : Char) : c.toNat < 1114112 := by
  rcases c.valid with h | ⟨_, h2⟩
  · exact Nat.lt_trans h (by norm_num)
  · exact h2

theorem char_eq_of_toNat (c d : Char) (h : c.toNat = d.toNat) : c = d :=
  Char.ext (UInt32.ext h)

theorem hexCh_toNat (k : Nat) (h : k < 16) :
    (hexCh k).toNat = if k < 10 then 48 + k else 87 + k := by
  by_cases h10 : k < 10
  · rw [hexCh, if_pos h10, if_pos h10, toNat_ofNat_lt _ (by omega)]
  · rw [hexCh, if_neg h10, if_neg h10, toNat_ofNat_lt _ (by omega)]

theorem hexDVal_hexCh (k : Nat) (h : k < 16) : hexDVal (hexCh k) = some k := by
  have ht := hexCh_toNat k h
  by_cases h10 : k < 10
  · rw [if_pos h10] at ht
    rw [hexDVal, ht, if_pos (by omega)]
    congr 1
    omega
  · rw [if_neg h10] at ht
    rw [hexDVal, ht, if_neg (by omega), if_pos (by omega)]
    congr 1
    omega

theorem hex4_hexCh (n : Nat) (h : n < 65536) :
    hex4 (hexCh (n / 4096 % 16)) (hexCh (n / 256 % 16)) (hexCh (n / 16 % 16))
      (hexCh (n % 16)) = some n := by
  simp only [hex4, hexDVal_hexCh (n / 4096 % 16) (by omega),
    hexDVal_hexCh (n / 256 % 16) (by omega),
    hexDVal_hexCh (n / 16 % 16) (by omega), hexDVal_hexCh (n % 16) (by omega)]
  congr 1
  omega

theorem parseOneChar_u (l : List Char) :
    parseOneChar ('\\' :: 'u' :: l) = decodeUEsc l := rfl

theorem decodeU_hexCh (n : Nat) (h : n < 65536) (rest : List Char) :
    decodeU (hexCh (n / 4096 % 16) :: hexCh (n / 256 % 16) ::
      hexCh (n / 16 % 16) :: hexCh (n % 16) :: rest) = some (n, rest) := by
  rw [decodeU, hex4_hexCh n h]
  rfl

/-- Decoding one character undoes `escChar`. -/
theorem parseOneChar_esc (c : Char) (rest : List Char) :
    parseOneChar (escChar c ++ rest) = some (c, rest) := by
  have hval : c.toNat < 55296 ∨ 57343 < c.toNat ∧ c.toNat < 1114112 := c.valid
  have hlt : c.toNat < 1114112 := toNat_lt_char c
  by_cases h34 : c.toNat = 34
  · have hc : c = '"' := char_eq_of_toNat c '"' (by rw [h34]; rfl)
    subst hc
    rfl
  by_cases h92 : c.toNat = 92
  · have hc : c = '\\' := char_eq_of_toNat c '\\' (by rw [h92]; rfl)
    subst hc
    rfl
  by_cases h10 : c.toNat = 10
  · have hc : c = '\n' := char_eq_of_toNat c '\n' (by rw [h10]; rfl)
    subst hc
    rfl
  by_cases h13 : c.toNat = 13
  · have hc : c = '\r' := char_eq_of_toNat c '\r' (by rw [h13]; rfl)
    subst hc
    rfl
  by_cases h9 : c.toNat = 9
  · have hc : c = '\t' := char_eq_of_toNat c '\t' (by rw [h9]; rfl)
    subst hc
    rfl
  by_cases h8 : c.toNat = 8
  · have hc : c = '\x08' := char_eq_of_toNat c '\x08' (by rw [h8]; rfl)
    subst hc
    rfl
  by_cases h12 : c.toNat = 12
  · have hc : c = '\x0c' := char_eq_of_toNat c '\x0c' (by rw [h12]; rfl)
    subst hc
    rfl
  by_cases hpr : 32 ≤ c.toNat ∧ c.toNat ≤ 126
  · have he : escChar c = [c] := by
      simp [escChar, h34, h92, h10, h13, h9, h8, h12, hpr]
    rw [he, List.cons_append, List.nil_append]
    simp only [parseOneChar]
    rw [if_neg h34, if_neg h92]
  by_cases hbmp : c.toNat < 65536
  · have he : escChar c = uEsc4 c.toNat := by
      simp [escChar, h34, h92, h10, h13, h9, h8, h12, hpr, hbmp]
    have hns1 : ¬(55296 ≤ c.toNat ∧ c.toNat ≤ 56319) := by
      rcases hval with hv | ⟨hv, _⟩ <;> omega
    have hns2 : ¬(56320 ≤ c.toNat ∧ c.toNat ≤ 57343) := by
      rcases hval with hv | ⟨hv, _⟩ <;> omega
    rw [he, uEsc4]
    simp only [List.cons_append, List.nil_append]
    rw [parseOneChar_u, decodeUEsc, decodeU_hexCh _ hbmp, sHead,
        if_neg hns1, if_neg hns2, ofNat_toNat_self]
  · have he : escChar c =
        uEsc4 (55296 + (c.toNat - 65536) / 1024) ++
        uEsc4 (56320 + (c.toNat - 65536) % 1024) := by
      simp [escChar, h34, h92, h10, h13, h9, h8, h12, hpr, hbmp]
    have hhi : 55296 + (c.toNat - 65536) / 1024 < 65536 := by omega
    have hlo : 56320 + (c.toNat - 65536) % 1024 < 65536 := by omega
    have hdiv : (c.toNat - 65536) / 1024 ≤ 1023 := by omega
    have hmod : (c.toNat - 65536) % 1024 ≤ 1023 := by omega
    rw [he, uEsc4, uEsc4]
    simp only [List.cons_append, List.append_assoc, List.nil_append]
    rw [parseOneChar_u, decodeUEsc, decodeU_hexCh _ hhi, sHead]
    rw [if_pos (by constructor <;> omega)]
    rw [sLow]
    rw [if_pos (show ('\\').toNat = 92 ∧ ('u').toNat = 117 from ⟨rfl, rfl⟩)]
    rw [decodeU_hexCh _ hlo, sPair]
    rw [if_pos (by constructor <;> omega)]
    have hcomb : 65536 + (55296 + (c.toNat - 65536) / 1024 - 55296) * 1024 +
        (56320 + (c.toNat - 65536) % 1024 - 56320) = c.toNat := by omega
    rw [hcomb, ofNat_toNat_self]

/-- Every escape starts with a character other than a bare quote. -/
theorem escChar_cons (c : Char) :
    ∃ e0 t0, escChar c = e0 :: t0 ∧ e0.toNat ≠ 34 := by
  by_cases h34 : c.toNat = 34
  · have hc : c = '"' := char_eq_of_toNat c '"' (by rw [h34]; rfl)
    subst hc
    exact ⟨'\\', ['"'], rfl, by decide⟩
  by_cases h92 : c.toNat = 92
  · have hc : c = '\\' := char_eq_of_toNat c '\\' (by rw [h92]; rfl)
    subst hc
    exact ⟨'\\', ['\\'], rfl, by decide⟩
  by_cases h10 : c.toNat = 10
  · have hc : c = '\n' := char_eq_of_toNat c '\n' (by rw [h10]; rfl)
    subst hc
    exact ⟨'\\', ['n'], rfl, by decide⟩
  by_cases h13 : c.toNat = 13
  · have hc : c = '\r' := char_eq_of_toNat c '\r' (by rw [h13]; rfl)
    subst hc
    exact ⟨'\\', ['r'], rfl, by decide⟩
  by_cases h9 : c.toNat = 9
  · have hc : c = '\t' := char_eq_of_toNat c '\t' (by rw [h9]; rfl)
    subst hc
    exact ⟨'\\', ['t'], rfl, by decide⟩
  by_cases h8 : c.toNat = 8
  · have hc : c = '\x08' := char_eq_of_toNat c '\x08' (by rw [h8]; rfl)
    subst hc
    exact ⟨'\\', ['b'], rfl, by decide⟩
  by_cases h12 : c.toNat = 12
  · have hc : c = '\x0c' := char_eq_of_toNat c '\x0c' (by rw [h12]; rfl)
    subst hc
    exact ⟨'\\', ['f'], rfl, by decide⟩
  by_cases hpr : 32 ≤ c.toNat ∧ c.toNat ≤ 126
  · exact ⟨c, [], by simp [escChar, h34, h92, h10, h13, h9, h8, h12, hpr], h34⟩
  by_cases hbmp : c.toNat < 65536
  · have he : escChar c = uEsc4 c.toNat := by
      simp [escChar, h34, h92, h10, h13, h9, h8, h12, hpr, hbmp]
    rw [he, uEsc4]
    exact ⟨'\\', _, rfl, by decide⟩
  · have he : escChar c =
        uEsc4 (55296 + (c.toNat - 65536) / 1024) ++
        uEsc4 (56320 + (c.toNat - 65536) % 1024) := by
      simp [escChar, h34, h92, h10, h13, h9, h8, h12, hpr, hbmp]
    rw [he, uEsc4, uEsc4]
    simp only [List.cons_append]
    exact ⟨'\\', _, rfl, by decide⟩

/-- Parsing an escaped run stops exactly at the closing quote. -/
theorem parseStrBodyAux_flatMap :
    ∀ (l : List Char) (fuel : Nat) (rest : List Char),
      (l.flatMap escChar).length < fuel →
      parseStrBodyAux fuel (l.flatMap escChar ++ '"' :: rest) = some (l, rest) := by
  intro l
  induction l with
  | nil =>
      intro fuel rest h
      cases fuel with
      | zero => omega
      | succ f =>
          simp only [List.flatMap_nil, List.nil_append, parseStrBodyAux]
          rw [if_pos (show ('"').toNat = 34 from rfl)]
  | cons c t ih =>
      intro fuel rest h
      obtain ⟨e0, t0, he, he34⟩ := escChar_cons c
      rw [List.flatMap_cons] at h ⊢
      have hlen : 1 ≤ (escChar c).length := by rw [he]; simp
      cases fuel with
      | zero => omega
      | succ f =>
          rw [List.append_assoc]
          have harg : escChar c ++ (t.flatMap escChar ++ '"' :: rest) =
              e0 :: (t0 ++ (t.flatMap escChar ++ '"' :: rest)) := by
            rw [he, List.cons_append]
          rw [harg, parseStrBodyAux]
          rw [if_neg he34]
          have hone : parseOneChar
              (e0 :: (t0 ++ (t.flatMap escChar ++ '"' :: rest))) =
              some (c, t.flatMap escChar ++ '"' :: rest) := by
            rw [← harg]
            exact parseOneChar_esc c _
          rw [hone]
          show (parseStrBodyAux f (t.flatMap escChar ++ '"' :: rest)).map
              (fun p => (c :: p.1, p.2)) = some (c :: t, rest)
          rw [ih f rest (by simp only [List.length_append] at h ⊢; omega)]
          rfl

/-- The string codec round trip. -/
theorem parseStrBody_flatMap (l : List Char) (rest : List Char) :
    parseStrBody (l.flatMap escChar ++ '"' :: rest) = some (l, rest) := by
  rw [parseStrBody]
  apply parseStrBodyAux_flatMap
  simp only [List.length_append, List.length_cons]
  omega

end ExtractReq

namespace ExtractReq

/-! ### Base64 round trip -/

theorem b64Ch_toNat (n : Nat) (h : n < 64) :
    (b64Ch n).toNat =
      if n < 26 then 65 + n
      else if n < 52 then 71 + n
      else if n < 62 then n - 4
      else if n = 62 then 43 else 47 := by
  by_cases h26 : n < 26
  · rw [b64Ch, if_pos h26, if_pos h26, toNat_ofNat_lt _ (by omega)]
  by_cases h52 : n < 52
  · rw [b64Ch, if_neg h26, if_pos h52, if_neg h26, if_pos h52,
        toNat_ofNat_lt _ (by omega)]
  by_cases h62 : n < 62
  · rw [b64Ch, if_neg h26, if_neg h52, if_pos h62, if_neg h26, if_neg h52,
        if_pos h62, toNat_ofNat_lt _ (by omega)]
  by_cases he : n = 62
  · rw [b64Ch, if_neg h26, if_neg h52, if_neg h62, if_pos he, if_neg h26,
        if_neg h52, if_neg h62, if_pos he]
    rfl
  · rw [b64Ch, if_neg h26, if_neg h52, if_neg h62, if_neg he, if_neg h26,
        if_neg h52, if_neg h62, if_neg he]
    rfl

theorem b64DVal_b64Ch (n : Nat) (h : n < 64) : b64DVal (b64Ch n) = some n := by
  have ht := b64Ch_toNat n h
  by_cases h26 : n < 26
  · rw [if_pos h26] at ht
    rw [b64DVal, ht, if_pos (by omega)]
    congr 1
    omega
  by_cases h52 : n < 52
  · rw [if_neg h26, if_pos h52] at ht
    rw [b64DVal, ht, if_neg (by omega), if_pos (by omega)]
    congr 1
    omega
  by_cases h62 : n < 62
  · rw [if_neg h26, if_neg h52, if_pos h62] at ht
    rw [b64DVal, ht, if_neg (by omega), if_neg (by omega), if_pos (by omega)]
    congr 1
    omega
  by_cases he : n = 62
  · rw [if_neg h26, if_neg h52, if_neg h62, if_pos he] at ht
    rw [b64DVal, ht, if_neg (by omega), if_neg (by omega), if_neg (by omega),
        if_pos rfl, he]
  · rw [if_neg h26, if_neg h52, if_neg h62, if_neg he] at ht
    rw [b64DVal, ht, if_neg (by omega), if_neg (by omega), if_neg (by omega),
        if_neg (by omega), if_pos rfl]
    congr 1
    omega

theorem b64Ch_ne_pad (n : Nat) (h : n < 64) : (b64Ch n).toNat ≠ 61 := by
  have ht := b64Ch_toNat n h
  by_cases h26 : n < 26
  · rw [if_pos h26] at ht
    omega
  by_cases h52 : n < 52
  · rw [if_neg h26, if_pos h52] at ht
    omega
  by_cases h62 : n < 62
  · rw [if_neg h26, if_neg h52, if_pos h62] at ht
    omega
  by_cases he : n = 62
  · rw [if_neg h26, if_neg h52, if_neg h62, if_pos he] at ht
    omega
  · rw [if_neg h26, if_neg h52, if_neg h62, if_neg he] at ht
    omega

theorem b64Quads_b64e : ∀ bs : List Nat, (∀ b ∈ bs, b < 256) →
    b64Quads (b64e bs) = some bs
  | [], _ => rfl
  | [x], h => by
      have hx : x < 256 := h x (by simp)
      rw [b64e, b64Quads]
      rw [b64DVal_b64Ch _ (by omega), Option.some_bind]
      rw [b64DVal_b64Ch _ (by omega), Option.some_bind]
      rw [if_pos (show ('=').toNat = 61 from rfl)]
      rw [if_pos ⟨rfl, rfl⟩]
      refine congrArg some ?_
      have e1 : x / 4 * 4 + x % 4 * 16 / 16 = x := by omega
      rw [e1]
  | [x, y], h => by
      have hx : x < 256 := h x (by simp)
      have hy : y < 256 := h y (by simp)
      rw [b64e, b64Quads]
      rw [b64DVal_b64Ch _ (by omega), Option.some_bind]
      rw [b64DVal_b64Ch _ (by omega), Option.some_bind]
      rw [if_neg (b64Ch_ne_pad _ (by omega))]
      rw [b64DVal_b64Ch _ (by omega), Option.some_bind]
      rw [if_pos (show ('=').toNat = 61 from rfl)]
      rw [if_pos rfl]
      refine congrArg some ?_
      have e1 : x / 4 * 4 + (x % 4 * 16 + y / 16) / 16 = x := by omega
      have e2 : (x % 4 * 16 + y / 16) % 16 * 16 + y % 16 * 4 / 4 = y := by omega
      rw [e1, e2]
  | x :: y :: z :: b4 :: rest, h => by
      have hx : x < 256 := h x (by simp)
      have hy : y < 256 := h y (by simp)
      have hz : z < 256 := h z (by simp)
      have ht : ∀ b ∈ b4 :: rest, b < 256 := fun b hb => h b (by simp [hb])
      rw [b64e, b64Quads]
      rw [b64DVal_b64Ch _ (by omega), Option.some_bind]
      rw [b64DVal_b64Ch _ (by omega), Option.some_bind]
      rw [if_neg (b64Ch_ne_pad _ (by omega))]
      rw [b64DVal_b64Ch _ (by omega), Option.some_bind]
      rw [if_neg (b64Ch_ne_pad _ (by omega))]
      rw [b64DVal_b64Ch _ (by omega), Option.some_bind]
      rw [b64Quads_b64e (b4 :: rest) ht]
      simp only [Option.map_some']
      refine congrArg some ?_
      have e1 : x / 4 * 4 + (x % 4 * 16 + y / 16) / 16 = x := by omega
      have e2 : (x % 4 * 16 + y / 16) % 16 * 16 + (y % 16 * 4 + z / 64) / 4 = y := by
        omega
      have e3 : (y % 16 * 4 + z / 64) % 4 * 64 + z % 64 = z := by omega
      rw [e1, e2, e3]
  | [x, y, z], h => by
      have hx : x < 256 := h x (by simp)
      have hy : y < 256 := h y (by simp)
      have hz : z < 256 := h z (by simp)
      rw [show b64e [x, y, z] = b64e (x :: y :: z :: []) from rfl, b64e,
          b64Quads]
      rw [b64DVal_b64Ch _ (by omega), Option.some_bind]
      rw [b64DVal_b64Ch _ (by omega), Option.some_bind]
      rw [if_neg (b64Ch_ne_pad _ (by omega))]
      rw [b64DVal_b64Ch _ (by omega), Option.some_bind]
      rw [if_neg (b64Ch_ne_pad _ (by omega))]
      rw [b64DVal_b64Ch _ (by omega), Option.some_bind]
      rw [show b64Quads (b64e []) = some [] from rfl]
      simp only [Option.map_some']
      refine congrArg some ?_
      have e1 : x / 4 * 4 + (x % 4 * 16 + y / 16) / 16 = x := by omega
      have e2 : (x % 4 * 16 + y / 16) % 16 * 16 + (y % 16 * 4 + z / 64) / 4 = y := by
        omega
      have e3 : (y % 16 * 4 + z / 64) % 4 * 64 + z % 64 = z := by omega
      rw [e1, e2, e3]

theorem b64e_keep : ∀ bs : List Nat, (∀ b ∈ bs, b < 256) →
    ∀ c ∈ b64e bs, ((b64DVal c).isSome || c.toNat = 61) = true
  | [], _ => by simp [b64e]
  | [x], h => by
      have hx : x < 256 := h x (by simp)
      rw [b64e]
      intro c hc
      simp only [List.mem_cons, List.not_mem_nil, or_false] at hc
      rcases hc with rfl | rfl | rfl | rfl
      · simp [b64DVal_b64Ch _ (show x / 4 < 64 by omega)]
      · simp [b64DVal_b64Ch _ (show x % 4 * 16 < 64 by omega)]
      · simp
      · simp
  | [x, y], h => by
      have hx : x < 256 := h x (by simp)
      have hy : y < 256 := h y (by simp)
      rw [b64e]
      intro c hc
      simp only [List.mem_cons, List.not_mem_nil, or_false] at hc
      rcases hc with rfl | rfl | rfl | rfl
      · simp [b64DVal_b64Ch _ (show x / 4 < 64 by omega)]
      · simp [b64DVal_b64Ch _ (show x % 4 * 16 + y / 16 < 64 by omega)]
      · simp [b64DVal_b64Ch _ (show y % 16 * 4 < 64 by omega)]
      · simp
  | x :: y :: z :: b4 :: rest, h => by
      have hx : x < 256 := h x (by simp)
      have hy : y < 256 := h y (by simp)
      have hz : z < 256 := h z (by simp)
      have ht : ∀ b ∈ b4 :: rest, b < 256 := fun b hb => h b (by simp [hb])
      rw [b64e]
      intro c hc
      simp only [List.mem_cons] at hc
      rcases hc with rfl | rfl | rfl | rfl | hc
      · simp [b64DVal_b64Ch _ (show x / 4 < 64 by omega)]
      · simp [b64DVal_b64Ch _ (show x % 4 * 16 + y / 16 < 64 by omega)]
      · simp [b64DVal_b64Ch _ (show y % 16 * 4 + z / 64 < 64 by omega)]
      · simp [b64DVal_b64Ch _ (show z % 64 < 64 by omega)]
      · exact b64e_keep (b4 :: rest) ht c hc
  | [x, y, z], h => by
      have hx : x < 256 := h x (by simp)
      have hy : y < 256 := h y (by simp)
      have hz : z < 256 := h z (by simp)
      rw [show b64e [x, y, z] = b64e (x :: y :: z :: []) from rfl, b64e]
      intro c hc
      simp only [List.mem_cons] at hc
      rcases hc with rfl | rfl | rfl | rfl | hc
      · simp [b64DVal_b64Ch _ (show x / 4 < 64 by omega)]
      · simp [b64DVal_b64Ch _ (show x % 4 * 16 + y / 16 < 64 by omega)]
      · simp [b64DVal_b64Ch _ (show y % 16 * 4 + z / 64 < 64 by omega)]
      · simp [b64DVal_b64Ch _ (show z % 64 < 64 by omega)]
      · simp [b64e] at hc

/-- The base64 codec round trip. -/
theorem b64_roundtrip (bs : List Nat) (h : ∀ b ∈ bs, b < 256) :
    b64decodeStr (b64encodeStr bs) = some bs := by
  rw [b64decodeStr, b64encodeStr]
  rw [show (String.mk (b64e bs)).toList = b64e bs from rfl]
  rw [List.filter_eq_self.mpr (b64e_keep bs h)]
  exact b64Quads_b64e bs h

end ExtractReq

namespace ExtractReq

/-! ### Parser dispatch lemmas -/

theorem skipJWs_cons (c : Char) (r : List Char) (h : isJWs c = false) :
    skipJWs (c :: r) = c :: r := by
  simp [skipJWs, List.dropWhile_cons, h]

theorem skipJWs_space (l : List Char) : skipJWs (' ' :: l) = skipJWs l := by
  simp [skipJWs, List.dropWhile_cons, show isJWs ' ' = true from rfl]

theorem isJWs_eq_false (c : Char) (h : c.toNat ≠ 32 ∧ c.toNat ≠ 9 ∧
    c.toNat ≠ 10 ∧ c.toNat ≠ 13) : isJWs c = false := by
  simp only [isJWs, Bool.or_eq_false_iff, decide_eq_false_iff_not]
  exact ⟨⟨⟨h.1, h.2.1⟩, h.2.2.1⟩, h.2.2.2⟩

theorem parseVal_quote (fuel : Nat) (r : List Char) :
    parseVal (fuel + 1) ('"' :: r) =
      (parseStrBody r).map (fun p => (.jstr ⟨p.1⟩, p.2)) := by
  rw [parseVal, skipJWs_cons _ _ (by decide)]
  norm_num [show ('"').toNat = 34 from rfl]

end ExtractReq

namespace ExtractReq

theorem string_eta (s : String) : (⟨s.toList⟩ : String) = s := rfl

theorem printQStr_append (s : String) (x : List Char) :
    printQStr s ++ x = '"' :: (s.toList.flatMap escChar ++ '"' :: x) := by
  simp [printQStr, List.append_assoc]

theorem parseVal_true (fuel : Nat) (r : List Char) :
    parseVal (fuel + 1) ('t' :: 'r' :: 'u' :: 'e' :: r) =
      some (.jbool true, r) := by
  rw [parseVal, skipJWs_cons _ _ (by decide)]
  norm_num [show ('t').toNat = 116 from rfl, show ('r').toNat = 114 from rfl,
    show ('u').toNat = 117 from rfl, show ('e').toNat = 101 from rfl]

theorem parseVal_false (fuel : Nat) (r : List Char) :
    parseVal (fuel + 1) ('f' :: 'a' :: 'l' :: 's' :: 'e' :: r) =
      some (.jbool false, r) := by
  rw [parseVal, skipJWs_cons _ _ (by decide)]
  norm_num [show ('f').toNat = 102 from rfl, show ('a').toNat = 97 from rfl,
    show ('l').toNat = 108 from rfl, show ('s').toNat = 115 from rfl,
    show ('e').toNat = 101 from rfl]

theorem parseVal_objNonempty (fuel : Nat) (r : List Char) :
    parseVal (fuel + 1) ('\x7b' :: '"' :: r) =
      (parseMems fuel ('"' :: r)).map (fun p => (.jobj p.1, p.2)) := by
  rw [parseVal, skipJWs_cons _ _ (by decide)]
  norm_num [show ('\x7b').toNat = 123 from rfl,
    show skipJWs ('"' :: r) = '"' :: r from skipJWs_cons _ _ (by decide),
    show ('"').toNat = 34 from rfl]

theorem parseVal_arrEmpty (fuel : Nat) (r : List Char) :
    parseVal (fuel + 1) ('[' :: ']' :: r) = some (.jarr [], r) := by
  rw [parseVal, skipJWs_cons _ _ (by decide)]
  norm_num [show ('[').toNat = 91 from rfl,
    show skipJWs (']' :: r) = ']' :: r from skipJWs_cons _ _ (by decide),
    show (']').toNat = 93 from rfl]

theorem parseVal_arrNonempty (fuel : Nat) (r : List Char) :
    parseVal (fuel + 1) ('[' :: '\x7b' :: r) =
      (parseItems fuel ('\x7b' :: r)).map (fun p => (.jarr p.1, p.2)) := by
  rw [parseVal, skipJWs_cons _ _ (by decide)]
  norm_num [show ('[').toNat = 91 from rfl,
    show skipJWs ('\x7b' :: r) = '\x7b' :: r from skipJWs_cons _ _ (by decide),
    show ('\x7b').toNat = 123 from rfl]

theorem parseVal_space (fuel : Nat) (cs : List Char) :
    parseVal (fuel + 1) (' ' :: cs) = parseVal (fuel + 1) cs := by
  rw [parseVal, parseVal, skipJWs_space]

theorem parseMems_space (fuel : Nat) (cs : List Char) :
    parseMems (fuel + 1) (' ' :: cs) = parseMems (fuel + 1) cs := by
  rw [parseMems, parseMems, skipJWs_space]

/-- Strings parse back at any positive fuel. -/
theorem valParses_printQ (s : String) : ValParsesN 1 (printQStr s) (.jstr s) := by
  intro fuel rest hf _
  obtain ⟨k, rfl⟩ : ∃ k, fuel = k + 1 := ⟨fuel - 1, by omega⟩
  rw [printQStr_append, parseVal_quote, parseStrBody_flatMap]
  simp [string_eta]

/-- Booleans parse back at any positive fuel. -/
theorem valParses_bool (b : Bool) : ValParsesN 1 (boolLit b) (.jbool b) := by
  intro fuel rest hf _
  obtain ⟨k, rfl⟩ : ∃ k, fuel = k + 1 := ⟨fuel - 1, by omega⟩
  cases b
  · rw [show boolLit false ++ rest = 'f' :: 'a' :: 'l' :: 's' :: 'e' :: rest
        from rfl, parseVal_false]
  · rw [show boolLit true ++ rest = 't' :: 'r' :: 'u' :: 'e' :: rest from rfl,
        parseVal_true]

/-- Integers parse back at any positive fuel. -/
theorem valParses_int (i : Int) : ValParsesN 1 (intDec i) (.jint i) := by
  intro fuel rest hf hstop
  obtain ⟨k, rfl⟩ : ∃ k, fuel = k + 1 := ⟨fuel - 1, by omega⟩
  by_cases hneg : i < 0
  · have harg : intDec i ++ rest = '-' :: (natDec i.natAbs ++ rest) := by
      simp [intDec, hneg]
    rw [harg, parseVal, skipJWs_cons _ _ (by decide)]
    norm_num [show ('-').toNat = 45 from rfl]
    rw [← harg, parseIntTok_append i rest hstop]
  · obtain ⟨c, t, hct, hc⟩ := natDec_cons i.natAbs
    have harg : intDec i ++ rest = c :: (t ++ rest) := by
      simp [intDec, hneg, hct]
    have hrange : 48 ≤ c.toNat ∧ c.toNat ≤ 57 := (isDigitCh_iff c).mp hc
    have hws : isJWs c = false := isJWs_eq_false c (by omega)
    rw [harg, parseVal, skipJWs_cons _ _ hws]
    simp only [eq_false (show ¬(c.toNat = 110) by omega),
      eq_false (show ¬(c.toNat = 116) by omega),
      eq_false (show ¬(c.toNat = 102) by omega),
      eq_false (show ¬(c.toNat = 34) by omega),
      eq_false (show ¬(c.toNat = 91) by omega),
      eq_false (show ¬(c.toNat = 123) by omega),
      if_false, hc, Bool.or_true, if_true]
    rw [show c :: (t ++ rest) = intDec i ++ rest from harg.symm,
        parseIntTok_append i rest hstop]
    rfl

end ExtractReq

namespace ExtractReq

theorem parseItems_space (fuel : Nat) (cs : List Char) :
    parseItems (fuel + 2) (' ' :: cs) = parseItems (fuel + 2) cs := by
  rw [parseItems, parseItems, parseVal_space]

/-- A nonempty run of printed members parses back, member by member. -/
theorem parseMems_gen :
    ∀ (specs : List (String × List Char × Json)) (N : Nat), 1 ≤ N →
      (∀ sp ∈ specs, ValParsesN N sp.2.1 sp.2.2) →
      ∀ (fuel : Nat) (rest : List Char), specs ≠ [] →
        specs.length + N ≤ fuel →
        parseMems fuel (memberRun specs ++ '\x7d' :: rest) =
          some (specs.map (fun sp => (sp.1, sp.2.2)), rest)
  | [], _, _, _, _, _, hne, _ => absurd rfl hne
  | [sp], N, hN, hvals, fuel, rest, _, hfuel => by
      have hflen : 1 + N ≤ fuel := by simpa using hfuel
      obtain ⟨k, rfl⟩ : ∃ k, fuel = k + 1 := ⟨fuel - 1, by omega⟩
      have harg : memberRun [sp] ++ '\x7d' :: rest =
          '"' :: (sp.1.toList.flatMap escChar ++ '"' ::
            (':' :: ' ' :: (sp.2.1 ++ '\x7d' :: rest))) := by
        simp [memberRun, printQStr, List.append_assoc]
      rw [harg, parseMems, skipJWs_cons _ _ (by decide)]
      norm_num [show ('"').toNat = 34 from rfl]
      rw [parseStrBody_flatMap]
      simp only [Option.some_bind]
      rw [skipJWs_cons _ _ (by decide)]
      norm_num [show (':').toNat = 58 from rfl]
      obtain ⟨k2, rfl⟩ : ∃ k2, k = k2 + 1 := ⟨k - 1, by omega⟩
      rw [parseVal_space]
      rw [hvals sp (by simp) (k2 + 1) ('\x7d' :: rest) (by omega) rfl]
      simp only [Option.some_bind]
      rw [skipJWs_cons _ _ (by decide)]
      norm_num [show ('\x7d').toNat = 125 from rfl, string_eta]
  | sp :: sp2 :: t, N, hN, hvals, fuel, rest, _, hfuel => by
      have hflen : t.length + 2 + N ≤ fuel := by simpa using hfuel
      obtain ⟨k, rfl⟩ : ∃ k, fuel = k + 1 := ⟨fuel - 1, by omega⟩
      have harg : memberRun (sp :: sp2 :: t) ++ '\x7d' :: rest =
          '"' :: (sp.1.toList.flatMap escChar ++ '"' ::
            (':' :: ' ' :: (sp.2.1 ++ ',' :: ' ' ::
              (memberRun (sp2 :: t) ++ '\x7d' :: rest)))) := by
        simp [memberRun, printQStr, List.append_assoc]
      rw [harg, parseMems, skipJWs_cons _ _ (by decide)]
      norm_num [show ('"').toNat = 34 from rfl]
      rw [parseStrBody_flatMap]
      simp only [Option.some_bind]
      rw [skipJWs_cons _ _ (by decide)]
      norm_num [show (':').toNat = 58 from rfl]
      obtain ⟨k2, rfl⟩ : ∃ k2, k = k2 + 1 := ⟨k - 1, by omega⟩
      rw [parseVal_space]
      rw [hvals sp (by simp) (k2 + 1)
          (',' :: ' ' :: (memberRun (sp2 :: t) ++ '\x7d' :: rest))
          (by omega) rfl]
      simp only [Option.some_bind]
      rw [skipJWs_cons _ _ (by decide)]
      norm_num [show (',').toNat = 44 from rfl]
      obtain ⟨k3, rfl⟩ : ∃ k3, k2 = k3 + 1 := ⟨k2 - 1, by omega⟩
      rw [parseMems_space]
      rw [parseMems_gen (sp2 :: t) N hN
          (fun x hx => hvals x (List.mem_cons_of_mem sp hx)) (k3 + 1 + 1) rest
          (by simp) (by simp; omega)]
      norm_num [string_eta]

/-- A nonempty run of printed array elements parses back. -/
theorem parseItems_gen :
    ∀ (vals : List (List Char × Json)) (N : Nat), 1 ≤ N →
      (∀ v ∈ vals, ValParsesN N v.1 v.2) →
      ∀ (fuel : Nat) (rest : List Char), vals ≠ [] →
        vals.length + N ≤ fuel →
        parseItems fuel (itemRun vals ++ ']' :: rest) =
          some (vals.map (fun v => v.2), rest)
  | [], _, _, _, _, _, hne, _ => absurd rfl hne
  | [v], N, hN, hvals, fuel, rest, _, hfuel => by
      have hflen : 1 + N ≤ fuel := by simpa using hfuel
      obtain ⟨k, rfl⟩ : ∃ k, fuel = k + 1 := ⟨fuel - 1, by omega⟩
      have harg : itemRun [v] ++ ']' :: rest = v.1 ++ ']' :: rest := by
        simp [itemRun]
      rw [harg, parseItems]
      rw [hvals v (by simp) k (']' :: rest) (by omega) rfl]

      simp only [Option.some_bind]
      rw [skipJWs_cons _ _ (by decide)]
      norm_num [show (']').toNat = 93 from rfl]
  | v :: v2 :: t, N, hN, hvals, fuel, rest, _, hfuel => by
      have hflen : t.length + 2 + N ≤ fuel := by simpa using hfuel
      obtain ⟨k, rfl⟩ : ∃ k, fuel = k + 2 := ⟨fuel - 2, by omega⟩
      have harg : itemRun (v :: v2 :: t) ++ ']' :: rest =
          v.1 ++ ',' :: ' ' :: (itemRun (v2 :: t) ++ ']' :: rest) := by
        simp [itemRun, List.append_assoc]
      rw [harg, parseItems]
      rw [hvals v (by simp) (k + 1)
          (',' :: ' ' :: (itemRun (v2 :: t) ++ ']' :: rest)) (by omega) rfl]
      simp only [Option.some_bind]
      rw [skipJWs_cons _ _ (by decide)]
      norm_num [show (',').toNat = 44 from rfl]
      obtain ⟨k3, rfl⟩ : ∃ k3, k = k3 + 1 := ⟨k - 1, by omega⟩
      rw [parseItems_space]
      rw [parseItems_gen (v2 :: t) N hN
          (fun x hx => hvals x (List.mem_cons_of_mem v hx)) (k3 + 1 + 1) rest
          (by simp) (by simp; omega)]
      simp

end ExtractReq

namespace ExtractReq

theorem valParsesN_mono (M N : Nat) (p : List Char) (j : Json) (h : M ≤ N)
    (hv : ValParsesN M p j) : ValParsesN N p j :=
  fun fuel rest hf hs => hv fuel rest (le_trans h hf) hs

theorem memberRun_cons_head (sp : String × List Char × Json)
    (t : List (String × List Char × Json)) :
    ∃ tl, memberRun (sp :: t) = '"' :: tl := by
  cases t
  · exact ⟨_, rfl⟩
  · exact ⟨_, rfl⟩

theorem parseVal_objRun (fuel : Nat) (sp : String × List Char × Json)
    (t : List (String × List Char × Json)) (rest : List Char) :
    parseVal (fuel + 1) ('\x7b' :: (memberRun (sp :: t) ++ '\x7d' :: rest)) =
      (parseMems fuel (memberRun (sp :: t) ++ '\x7d' :: rest)).map
        (fun p => (.jobj p.1, p.2)) := by
  obtain ⟨tl, htl⟩ := memberRun_cons_head sp t
  rw [htl, List.cons_append, parseVal_objNonempty]

theorem parseVal_arrRun (fuel : Nat) (v : List Char × Json)
    (t : List (List Char × Json)) (rest : List Char)
    (hv : ∃ tl, v.1 = '\x7b' :: tl) :
    parseVal (fuel + 1) ('[' :: (itemRun (v :: t) ++ ']' :: rest)) =
      (parseItems fuel (itemRun (v :: t) ++ ']' :: rest)).map
        (fun p => (.jarr p.1, p.2)) := by
  obtain ⟨tl, htl⟩ := hv
  have hhead : ∃ tl2, itemRun (v :: t) = '\x7b' :: tl2 := by
    cases t with
    | nil => exact ⟨tl, by rw [show itemRun [v] = v.1 from rfl, htl]⟩
    | cons h2 t2 =>
        exact ⟨_, by
          rw [show itemRun (v :: h2 :: t2) =
                v.1 ++ ',' :: ' ' :: itemRun (h2 :: t2) from rfl, htl]
          rfl⟩
  obtain ⟨tl2, htl2⟩ := hhead
  rw [htl2, List.cons_append, parseVal_arrNonempty]

/-- An item object parses back to its `model_dump` JSON value. -/
theorem valParses_item (it : RequirementResult) :
    ValParsesN 4 (dumpItem it) (itemDump it) := by
  intro fuel rest hf _
  obtain ⟨k, rfl⟩ : ∃ k, fuel = k + 1 := ⟨fuel - 1, by omega⟩
  have hrun : dumpItem it ++ rest =
      '\x7b' :: (memberRun
        [("comment", printQStr it.comment, Json.jstr it.comment),
         ("is_requirement", boolLit it.is_requirement,
          Json.jbool it.is_requirement)] ++ '\x7d' :: rest) := by
    simp [dumpItem, memberRun, List.append_assoc]
  rw [hrun, parseVal_objRun]
  rw [parseMems_gen _ 1 (by omega) ?hv k rest (by simp) (by simp; omega)]
  · simp [itemDump]
  case hv =>
    intro sp hsp
    simp only [List.mem_cons, List.not_mem_nil, or_false] at hsp
    rcases hsp with rfl | rfl
    · exact valParses_printQ it.comment
    · exact valParses_bool it.is_requirement

theorem dumpItems_itemRun : ∀ its : List RequirementResult,
    dumpItems its = itemRun (its.map (fun it => (dumpItem it, itemDump it)))
  | [] => rfl
  | [x] => rfl
  | x :: y :: t => by
      rw [show dumpItems (x :: y :: t) =
            dumpItem x ++ ',' :: ' ' :: dumpItems (y :: t) from rfl,
          dumpItems_itemRun (y :: t)]
      rfl

/-- The printed requirements array parses back. -/
theorem valParses_reqArr (its : List RequirementResult) :
    ValParsesN (its.length + 5) ('[' :: (dumpItems its ++ [']']))
      (.jarr (its.map itemDump)) := by
  intro fuel rest hf _
  obtain ⟨k, rfl⟩ : ∃ k, fuel = k + 1 := ⟨fuel - 1, by omega⟩
  have harg : ('[' :: (dumpItems its ++ [']'])) ++ rest =
      '[' :: (dumpItems its ++ ']' :: rest) := by
    simp [List.append_assoc]
  rw [harg]
  cases its with
  | nil =>
      rw [show dumpItems [] = ([] : List Char) from rfl, List.nil_append,
          parseVal_arrEmpty]
      rfl
  | cons x t =>
      rw [dumpItems_itemRun, List.map_cons]
      rw [parseVal_arrRun _ _ _ _ ⟨_, rfl⟩]
      rw [parseItems_gen _ 4 (by omega) ?hv k rest (by simp) ?bound]
      · simp [List.map_map]
      case hv =>
        intro v hv
        simp only [List.mem_cons, List.mem_map] at hv
        rcases hv with rfl | ⟨it2, _, rfl⟩
        · exact valParses_item x
        · exact valParses_item it2
      case bound =>
        simp only [List.length_cons, List.length_map]
        simp at hf
        omega

end ExtractReq

namespace ExtractReq

/-- The whole response object parses back to its `model_dump` JSON
value. -/
theorem valParses_resp (r : ProcessingResponse) :
    ValParsesN (r.requirements.length + 11) (dumpResp r) (respDump r) := by
  intro fuel rest hf _
  obtain ⟨k, rfl⟩ : ∃ k, fuel = k + 1 := ⟨fuel - 1, by omega⟩
  have hrun : dumpResp r ++ rest =
      '\x7b' :: (memberRun
        [("source_type", printQStr r.source_type, Json.jstr r.source_type),
         ("total_comments", intDec r.total_comments,
          Json.jint r.total_comments),
         ("valid_requirements", intDec r.valid_requirements,
          Json.jint r.valid_requirements),
         ("processing_time_ms", intDec r.processing_time_ms,
          Json.jint r.processing_time_ms),
         ("requirements", '[' :: (dumpItems r.requirements ++ [']']),
          Json.jarr (r.requirements.map itemDump))] ++ '\x7d' :: rest) := by
    simp [dumpResp, memberRun, List.append_assoc]
  rw [hrun, parseVal_objRun]
  rw [parseMems_gen _ (r.requirements.length + 5) (by omega) ?hv k rest
      (by simp) ?bound]
  · simp [respDump]
  case hv =>
    intro sp hsp
    simp only [List.mem_cons, List.not_mem_nil, or_false] at hsp
    rcases hsp with rfl | rfl | rfl | rfl | rfl
    · exact valParsesN_mono 1 _ _ _ (by omega) (valParses_printQ r.source_type)
    · exact valParsesN_mono 1 _ _ _ (by omega) (valParses_int r.total_comments)
    · exact valParsesN_mono 1 _ _ _ (by omega)
        (valParses_int r.valid_requirements)
    · exact valParsesN_mono 1 _ _ _ (by omega)
        (valParses_int r.processing_time_ms)
    · exact valParses_reqArr r.requirements
  case bound =>
    simp only [List.length_cons, List.length_nil]
    simp at hf
    omega

/-- The whole serialized blob parses back to its JSON value. -/
theorem valParses_blob (r : ProcessingResponse) (a : List Nat) :
    ValParsesN (r.requirements.length + 14) (serializeBlob r a).toList
      (blobDump r a) := by
  intro fuel rest hf _
  obtain ⟨k, rfl⟩ : ∃ k, fuel = k + 1 := ⟨fuel - 1, by omega⟩
  have hrun : (serializeBlob r a).toList ++ rest =
      '\x7b' :: (memberRun
        [("response", dumpResp r, respDump r),
         ("pdf_base64", printQStr (b64encodeStr a),
          Json.jstr (b64encodeStr a))] ++ '\x7d' :: rest) := by
    rw [show (serializeBlob r a).toList =
          '\x7b' :: (printQStr "response" ++ ':' :: ' ' :: dumpResp r ++
            ',' :: ' ' :: printQStr "pdf_base64" ++ ':' :: ' ' ::
            printQStr (b64encodeStr a) ++ ['\x7d']) from rfl]
    simp [memberRun, List.append_assoc]
  rw [hrun, parseVal_objRun]
  rw [parseMems_gen _ (r.requirements.length + 11) (by omega) ?hv k rest
      (by simp) ?bound]
  · simp [blobDump]
  case hv =>
    intro sp hsp
    simp only [List.mem_cons, List.not_mem_nil, or_false] at hsp
    rcases hsp with rfl | rfl
    · exact valParses_resp r
    · exact valParsesN_mono 1 _ _ _ (by omega)
        (valParses_printQ (b64encodeStr a))
  case bound =>
    simp only [List.length_cons, List.length_nil]
    simp at hf
    omega

theorem dumpItems_length : ∀ its : List RequirementResult,
    its.length ≤ (dumpItems its).length
  | [] => le_refl 0
  | [x] => by
      rw [show dumpItems [x] = dumpItem x from rfl, dumpItem]
      simp only [List.length_cons, List.length_nil]
      omega
  | x :: y :: t => by
      have ih := dumpItems_length (y :: t)
      rw [show dumpItems (x :: y :: t) =
            dumpItem x ++ ',' :: ' ' :: dumpItems (y :: t) from rfl]
      simp only [List.length_append, List.length_cons] at *
      omega

theorem dumpResp_length (r : ProcessingResponse) :
    r.requirements.length + 13 ≤ (dumpResp r).length := by
  have h := dumpItems_length r.requirements
  rw [dumpResp]
  simp only [printQStr, List.length_cons, List.length_append]
  omega

theorem serializeBlob_length (r : ProcessingResponse) (a : List Nat) :
    r.requirements.length + 13 ≤ (serializeBlob r a).toList.length := by
  have h := dumpResp_length r
  rw [show (serializeBlob r a).toList =
        '\x7b' :: (printQStr "response" ++ ':' :: ' ' :: dumpResp r ++
          ',' :: ' ' :: printQStr "pdf_base64" ++ ':' :: ' ' ::
          printQStr (b64encodeStr a) ++ ['\x7d']) from rfl]
  simp only [printQStr, List.length_cons, List.length_append]
  omega

/-- `json.loads` recovers the JSON value of any serialized entry. -/
theorem jsonLoads_serializeBlob (r : ProcessingResponse) (a : List Nat) :
    jsonLoads (serializeBlob r a) = .ok (blobDump r a) := by
  rw [jsonLoads]
  have hp := valParses_blob r a ((serializeBlob r a).toList.length + 1) []
    (by have := serializeBlob_length r a; omega) rfl
  rw [List.append_nil] at hp
  rw [hp]
  rfl

theorem itemFromJson_itemDump (it : RequirementResult) :
    itemFromJson (itemDump it) = .ok it := rfl

theorem itemsFromJson_map : ∀ its : List RequirementResult,
    itemsFromJson (its.map itemDump) = .ok its
  | [] => rfl
  | x :: t => by
      rw [List.map_cons,
          show itemsFromJson (itemDump x :: t.map itemDump) =
            applyItem (itemFromJson (itemDump x))
              (itemsFromJson (t.map itemDump)) from rfl,
          itemFromJson_itemDump, itemsFromJson_map t]
      rfl

theorem respFromJson_respDump (r : ProcessingResponse) :
    respFromJson (respDump r) = .ok r := by
  have h : respFromJson (respDump r) =
      withItems r.source_type r.total_comments r.valid_requirements
        r.processing_time_ms (itemsFromJson (r.requirements.map itemDump)) :=
    rfl
  rw [h, itemsFromJson_map]
  rfl

theorem blobRebuild_blobDump (r : ProcessingResponse) (a : List Nat)
    (ha : ∀ b ∈ a, b < 256) :
    blobRebuild (blobDump r a) = .ok (r, a) := by
  have h : blobRebuild (blobDump r a) =
      (respFromJson (respDump r)).bind
        (fun resp => withBytes resp (b64decodeStr (b64encodeStr a))) := rfl
  rw [h, respFromJson_respDump, b64_roundtrip a ha]
  rfl

/-- Deserializing a freshly serialized entry recovers the response and
the artifact bytes exactly. -/
theorem deserializeBlob_serializeBlob (r : ProcessingResponse) (a : List Nat)
    (ha : ∀ b ∈ a, b < 256) :
    deserializeBlob (serializeBlob r a) = .ok (r, a) := by
  rw [deserializeBlob, jsonLoads_serializeBlob]
  show blobRebuild (blobDump r a) = .ok (r, a)
  exact blobRebuild_blobDump r a ha

end ExtractReq

namespace ExtractReq

/-! ### Key structure: digest length, hex alphabet, category injectivity -/

theorem word4Bytes_lt (w : Nat) : ∀ b ∈ word4Bytes w, b < 256 := by
  intro b hb
  simp only [word4Bytes, List.mem_cons, List.not_mem_nil, or_false] at hb
  rcases hb with rfl | rfl | rfl | rfl <;> omega

theorem sha256_lt (m : List Nat) : ∀ b ∈ sha256 m, b < 256 := by
  intro b hb
  simp only [sha256, List.mem_flatMap] at hb
  obtain ⟨w, _, hbw⟩ := hb
  exact word4Bytes_lt w b hbw

theorem sha256_length (m : List Nat) : (sha256 m).length = 32 := by
  simp [sha256, word4Bytes]

theorem isHexDigitCh_hexCh (n : Nat) (h : n < 16) :
    isHexDigitCh (hexCh n) = true := by
  rw [hexCh]
  by_cases h10 : n < 10
  · rw [if_pos h10, isHexDigitCh, toNat_ofNat_lt _ (by omega)]
    simp only [Bool.or_eq_true, Bool.and_eq_true, decide_eq_true_eq]
    omega
  · rw [if_neg h10, isHexDigitCh, toNat_ofNat_lt _ (by omega)]
    simp only [Bool.or_eq_true, Bool.and_eq_true, decide_eq_true_eq]
    omega

theorem flatMap_hexByte_length : ∀ l : List Nat,
    (l.flatMap hexByte).length = 2 * l.length
  | [] => rfl
  | b :: t => by
      rw [List.flatMap_cons, List.length_append, flatMap_hexByte_length t,
          show (hexByte b).length = 2 from rfl, List.length_cons]
      omega

theorem sha256Hex_length (m : List Nat) : (sha256Hex m).data.length = 64 := by
  rw [show (sha256Hex m).data = (sha256 m).flatMap hexByte from rfl,
      flatMap_hexByte_length, sha256_length]

theorem sha256Hex_hex (m : List Nat) :
    ∀ x ∈ (sha256Hex m).data, isHexDigitCh x = true := by
  intro x hx
  rw [show (sha256Hex m).data = (sha256 m).flatMap hexByte from rfl,
      List.mem_flatMap] at hx
  obtain ⟨b, hb, hxb⟩ := hx
  have hblt := sha256_lt m b hb
  simp only [hexByte, List.mem_cons, List.not_mem_nil, or_false] at hxb
  rcases hxb with rfl | rfl
  · exact isHexDigitCh_hexCh _ (by omega)
  · exact isHexDigitCh_hexCh _ (by omega)

theorem sha256Hex_no_colon (m : List Nat) : ':' ∉ (sha256Hex m).data :=
  fun h => absurd (sha256Hex_hex m ':' h) (by decide)

theorem string_data_append (a b : String) : (a ++ b).data = a.data ++ b.data :=
  rfl

theorem append_colon_inj : ∀ (a b x y : List Char), ':' ∉ a → ':' ∉ b →
    a ++ ':' :: x = b ++ ':' :: y → a = b ∧ x = y := by
  intro a
  induction a with
  | nil =>
      intro b x y _ hb h
      cases b with
      | nil => simpa using h
      | cons c t =>
          rw [List.nil_append, List.cons_append, List.cons.injEq] at h
          exact absurd (h.1 ▸ List.mem_cons_self c t) hb
  | cons c t ih =>
      intro b x y ha hb h
      cases b with
      | nil =>
          rw [List.cons_append, List.nil_append, List.cons.injEq] at h
          exact absurd (h.1 ▸ List.mem_cons_self c t) ha
      | cons c2 t2 =>
          rw [List.cons_append, List.cons_append, List.cons.injEq] at h
          obtain ⟨h1, h2⟩ := h
          have hrec := ih t2 x y (fun hm => ha (List.mem_cons_of_mem _ hm))
            (fun hm => hb (List.mem_cons_of_mem _ hm)) h2
          exact ⟨by rw [h1, hrec.1], hrec.2⟩

/-- Equal cache keys force equal categories, as long as the categories
themselves carry no colon (as the fixed namespaces do). -/
theorem generateCacheKey_cat_inj (c c2 k k2 : String)
    (hk : ':' ∉ k.data) (hk2 : ':' ∉ k2.data)
    (h : generateCacheKey c k = generateCacheKey c2 k2) : k = k2 := by
  have hd := congrArg String.data h
  rw [generateCacheKey, generateCacheKey, string_data_append,
      string_data_append, string_data_append, string_data_append,
      show (":" : String).data = [':'] from rfl, List.append_assoc,
      List.append_assoc, List.cons_append, List.cons_append,
      List.nil_append, List.nil_append] at hd
  have := append_colon_inj k.data k2.data _ _ hk hk2 hd
  cases k; cases k2
  exact congrArg String.mk this.1

/-- The key only depends on the normalized content. -/
theorem generateCacheKey_norm (c c2 k : String)
    (h : pyNormalize c2 = pyNormalize c) :
    generateCacheKey c2 k = generateCacheKey c k := by
  rw [generateCacheKey, generateCacheKey, h]

end ExtractReq

namespace ExtractReq

/-! ### Normalization invariance -/

/-- Whitespace is unchanged by `lower`. -/
theorem lowerCh_ws (c : Char) (h : isPyWs c = true) : lowerCh c = c := by
  rw [lowerCh, if_neg]
  simp only [isPyWs, Bool.or_eq_true, decide_eq_true_eq] at h
  omega

theorem dropWhile_all_append (p : Char → Bool) (l1 l2 : List Char)
    (h : ∀ x ∈ l1, p x = true) :
    (l1 ++ l2).dropWhile p = l2.dropWhile p := by
  rw [List.dropWhile_append, if_pos]
  rw [List.dropWhile_eq_nil_iff.mpr h]
  rfl

/-- Stripping ignores all-whitespace padding on either side. -/
theorem stripChars_pad (pre m suf : List Char)
    (hpre : ∀ x ∈ pre, isPyWs x = true)
    (hsuf : ∀ x ∈ suf, isPyWs x = true) :
    stripChars (pre ++ m ++ suf) = stripChars m := by
  rw [stripChars, List.append_assoc, dropWhile_all_append _ _ _ hpre]
  by_cases hm : m.dropWhile isPyWs = []
  · rw [List.dropWhile_append, if_pos (by rw [hm]; rfl),
        List.dropWhile_eq_nil_iff.mpr hsuf, stripChars, hm]
  · rw [List.dropWhile_append, if_neg (by
        cases he : m.dropWhile isPyWs with
        | nil => exact absurd he hm
        | cons a t => simp [he]),
        List.reverse_append,
        dropWhile_all_append _ _ _
          (fun x hx => hsuf x (List.mem_reverse.mp hx))]
    rfl

/-- Contents that differ only in letter case and in all-whitespace
padding normalize identically. -/
theorem pyNormalize_pad (c c2 : String) (pre suf : List Char)
    (hpre : ∀ x ∈ pre, isPyWs x = true)
    (hsuf : ∀ x ∈ suf, isPyWs x = true)
    (hcase : c2.data.map lowerCh = c.data.map lowerCh) :
    pyNormalize ⟨pre ++ c2.data ++ suf⟩ = pyNormalize c := by
  have hpre2 : pre.map lowerCh = pre :=
    (List.map_congr_left fun x hx => lowerCh_ws x (hpre x hx)).trans
      (List.map_id pre)
  have hsuf2 : suf.map lowerCh = suf :=
    (List.map_congr_left fun x hx => lowerCh_ws x (hsuf x hx)).trans
      (List.map_id suf)
  rw [pyNormalize, pyNormalize, pyLower, pyLower, pyStrip, pyStrip]
  refine congrArg String.mk ?_
  show stripChars ((pre ++ c2.data ++ suf).map lowerCh) =
    stripChars (c.data.map lowerCh)
  rw [List.map_append, List.map_append, hpre2, hsuf2, hcase,
      stripChars_pad _ _ _ hpre hsuf]

end ExtractReq

namespace ExtractReq

/-! ### Service-level helper lemmas -/

theorem findEntry_filter_self (d : List (String × EntryV)) (k : String) :
    findEntry (d.filter (fun p => p.1 != k)) k = none := by
  have h : (d.filter (fun p => p.1 != k)).find? (fun p => p.1 == k) = none := by
    rw [List.find?_eq_none]
    intro x hx hbeq
    rw [List.mem_filter] at hx
    have hne := hx.2
    rw [bne_iff_ne] at hne
    exact hne (by simpa using hbeq)
  rw [findEntry, h]
  rfl

/-! ### The claims -/

/-- C3: with the enabled flag false (failed startup probe), lookup is a
guaranteed miss, store reports failure, and invalidate and clear report
`false`, all without touching the backing store (the store state is
returned unchanged) and without raising. -/
theorem cache_disabled_noop (rs : RedisState) (now : Nat) (c k : String)
    (r : ProcessingResponse) (a : List Nat) :
    getCachedResultGeneric false rs now c k = none ∧
    cacheResultGeneric false rs now c k r a = (false, rs) ∧
    invalidateCache false rs now c = (false, rs) ∧
    clearAllCache false rs now = (false, rs) :=
  ⟨rfl, rfl, rfl, rfl⟩

/-- C4: the derived key is exactly the category, a colon, and the
SHA-256 hex digest of the UTF-8 bytes of the normalized content; the
digest part is 64 lowercase hex characters.  The derivation is a total
pure function (a Lean function), so determinism and success on every
input, including the empty string, hold by construction. -/
theorem derive_key_shape (c k : String) :
    generateCacheKey c k =
      k ++ ":" ++ sha256Hex (utf8Bytes (pyNormalize c)) ∧
    (sha256Hex (utf8Bytes (pyNormalize c))).data.length = 64 ∧
    ∀ x ∈ (sha256Hex (utf8Bytes (pyNormalize c))).data,
      isHexDigitCh x = true :=
  ⟨rfl, sha256Hex_length _, sha256Hex_hex _⟩

/-- C5: key derivation is invariant under letter case and leading or
trailing whitespace: any content written as whitespace, a case variant,
then whitespace derives the same key as the original. -/
theorem derive_key_norm_invariant (k c c2 : String) (pre suf : List Char)
    (hpre : ∀ x ∈ pre, isPyWs x = true)
    (hsuf : ∀ x ∈ suf, isPyWs x = true)
    (hcase : c2.data.map lowerCh = c.data.map lowerCh) :
    generateCacheKey ⟨pre ++ c2.data ++ suf⟩ k = generateCacheKey c k := by
  rw [generateCacheKey, generateCacheKey,
      pyNormalize_pad c c2 pre suf hpre hsuf hcase]

/-- The spec's own instance: `" Foo "` and `"foo"` derive the same key
(category `"remote-resource"` reads `"playstore"` in the source). -/
theorem derive_key_norm_invariant_check :
    (∀ x ∈ [' '], isPyWs x = true) ∧
    (("Foo" : String).data.map lowerCh = ("foo" : String).data.map lowerCh) ∧
    generateCacheKey " Foo " "playstore" = generateCacheKey "foo" "playstore" :=
  ⟨by decide, by decide,
   derive_key_norm_invariant "playstore" "foo" "Foo" [' '] [' ']
     (by decide) (by decide) (by decide)⟩

end ExtractReq

namespace ExtractReq

/-- C1: if a store of `(r, a)` under content `c` succeeds and the entry
is still unexpired, a lookup with any content `c2` normalizing like `c`
returns exactly `(r, a)`: the record survives the JSON round trip and
the artifact survives the base64 round trip. -/
theorem cache_store_lookup_roundtrip (rs : RedisState) (now now2 : Nat)
    (c c2 k : String) (r : ProcessingResponse) (a : List Nat)
    (hnorm : pyNormalize c2 = pyNormalize c)
    (ha : ∀ b ∈ a, b < 256)
    (hsucc : (cacheResultGeneric true rs now c k r a).1 = true)
    (hfresh : now2 < now + CACHE_TTL_SECONDS) :
    getCachedResultGeneric true (cacheResultGeneric true rs now c k r a).2
      now2 c2 k = some (r, a) := by
  cases hrc : rs.reachable with
  | false =>
      rw [cacheResultGeneric] at hsucc
      simp [redisSetex, hrc, unwrapStore] at hsucc
  | true =>
      have hkey := generateCacheKey_norm c c2 k hnorm
      rw [cacheResultGeneric]
      simp only [if_true, redisSetex, hrc, unwrapStore]
      rw [getCachedResultGeneric]
      simp only [if_true, redisGet, hrc, hkey, findEntry, List.find?_cons,
        beq_self_eq_true, getLive, liveAt, unwrapLookup]
      simp [hfresh, Except.bind, hitOrMiss, Except.map,
        deserializeBlob_serializeBlob r a ha]

/-- C2: with the backing store unreachable every operation yields its
no-result outcome (miss, `false`, the error stats report) and leaves the
store untouched; and a stored blob that fails to deserialize makes the
lookup a miss, exactly as an absent entry would. -/
theorem cache_ops_total (rs : RedisState) (now : Nat) (c k : String)
    (r : ProcessingResponse) (a : List Nat) :
    (rs.reachable = false →
      getCachedResultGeneric true rs now c k = none ∧
      cacheResultGeneric true rs now c k r a = (false, rs) ∧
      invalidateCache true rs now c = (false, rs) ∧
      clearAllCache true rs now = (false, rs) ∧
      getCacheStats true rs now =
        [("enabled", .jbool true), ("error", .jstr "ConnectionError")]) ∧
    (∀ s e exp, deserializeBlob s = .error e → now < exp →
      getCachedResultGeneric true
        ⟨true, [(generateCacheKey c k, ⟨s, exp⟩)], rs.usedMemory⟩ now c k =
        none) := by
  constructor
  · intro hrf
    refine ⟨?_, ?_, ?_, ?_, ?_⟩
    · simp [getCachedResultGeneric, redisGet, hrf, unwrapLookup, Except.bind]
    · simp [cacheResultGeneric, redisSetex, hrf, unwrapStore]
    · simp [invalidateCache, redisDel, hrf, unwrapDel]
    · simp [clearAllCache, redisKeys, hrf, unwrapClear, Except.bind]
    · simp [getCacheStats, redisKeys, hrf, statsFin, Except.bind]
  · intro s e exp hde hexp
    rw [getCachedResultGeneric]
    simp only [if_true, redisGet, findEntry, List.find?_cons,
      beq_self_eq_true, getLive, liveAt, unwrapLookup]
    simp [hexp, Except.bind, hitOrMiss, Except.map, hde]

end ExtractReq

namespace ExtractReq

/-- Store-then-lookup at a concrete instance: padded, re-cased content
hits the entry and returns the stored record and bytes. -/
theorem cache_store_lookup_roundtrip_check :
    pyNormalize " U " = pyNormalize "u" ∧
    getCachedResultGeneric true
      (cacheResultGeneric true ⟨true, [], 0⟩ 0 "u" "playstore"
        ⟨"url", 10, 3, 120, [⟨"Great app", true⟩]⟩ [37, 80, 68, 70]).2
      1 " U " "playstore" =
      some (⟨"url", 10, 3, 120, [⟨"Great app", true⟩]⟩, [37, 80, 68, 70]) :=
  ⟨by decide,
   cache_store_lookup_roundtrip ⟨true, [], 0⟩ 0 1 "u" " U " "playstore"
     _ _ (by decide) (by decide) rfl (by decide)⟩

/-- The no-result outcomes at concrete inputs: unreachable store, and a
live entry whose blob does not parse. -/
theorem cache_ops_total_check :
    getCachedResultGeneric true ⟨false, [], 0⟩ 0 "u" "playstore" = none ∧
    cacheResultGeneric true ⟨false, [], 0⟩ 0 "u" "playstore"
      ⟨"url", 0, 0, 0, []⟩ [] = (false, ⟨false, [], 0⟩) ∧
    getCachedResultGeneric true
      ⟨true, [(generateCacheKey "u" "playstore", ⟨"", 1⟩)], 0⟩ 0 "u"
      "playstore" = none := by
  obtain ⟨h1, h2⟩ := cache_ops_total ⟨false, [], 0⟩ 0 "u" "playstore"
    ⟨"url", 0, 0, 0, []⟩ []
  have hh := h1 rfl
  exact ⟨hh.1, hh.2.1, h2 "" "JSONDecodeError" 1 rfl (by decide)⟩

/-- C6: the fixed categories are mutually exclusive namespaces: keys
derived under distinct categories never coincide, and a store under one
category is invisible to a lookup of the same content under another. -/
theorem derive_key_category_isolation (c c2 k k2 : String)
    (hk : k ∈ (["playstore", "csv", "comment"] : List String))
    (hk2 : k2 ∈ (["playstore", "csv", "comment"] : List String))
    (hne : k ≠ k2) (um now now2 : Nat)
    (r : ProcessingResponse) (a : List Nat) :
    generateCacheKey c k ≠ generateCacheKey c2 k2 ∧
    getCachedResultGeneric true
      (cacheResultGeneric true ⟨true, [], um⟩ now c k r a).2 now2 c2 k2 =
      none := by
  have hcolon : ∀ x ∈ (["playstore", "csv", "comment"] : List String),
      ':' ∉ x.data := by decide
  have hkeys : generateCacheKey c k ≠ generateCacheKey c2 k2 := fun h =>
    hne (generateCacheKey_cat_inj c c2 k k2 (hcolon k hk) (hcolon k2 hk2) h)
  refine ⟨hkeys, ?_⟩
  have hbeq : (generateCacheKey c k == generateCacheKey c2 k2) = false :=
    beq_eq_false_iff_ne.mpr hkeys
  rw [cacheResultGeneric]
  simp only [if_true, redisSetex, unwrapStore]
  rw [getCachedResultGeneric]
  simp [redisGet, findEntry, getLive, hitOrMiss, unwrapLookup, Except.bind,
    hbeq]

/-- Category isolation at a concrete instance. -/
theorem derive_key_category_isolation_check :
    generateCacheKey "x" "playstore" ≠ generateCacheKey "x" "csv" ∧
    getCachedResultGeneric true
      (cacheResultGeneric true ⟨true, [], 0⟩ 0 "x" "playstore"
        ⟨"url", 0, 0, 0, []⟩ []).2 0 "x" "csv" = none :=
  derive_key_category_isolation "x" "x" "playstore" "csv" (by decide)
    (by decide) (by decide) 0 0 0 ⟨"url", 0, 0, 0, []⟩ []

/-- C7: on a reachable store, invalidate reports `true` exactly when a
live entry existed under the derived key, and a second invalidation of
the same content reports `false`: it is idempotent and total on missing
keys. -/
theorem invalidate_semantics (rs : RedisState) (now : Nat) (url : String)
    (hr : rs.reachable = true) :
    ((invalidateCache true rs now url).1 = true ↔
      ∃ e, findEntry rs.data (generateCacheKey url) = some e ∧
        liveAt now e = true) ∧
    (invalidateCache true (invalidateCache true rs now url).2 now url).1 =
      false := by
  have h2 : (invalidateCache true rs now url).2 =
      ⟨rs.reachable, rs.data.filter (fun p => p.1 != generateCacheKey url),
       rs.usedMemory⟩ := by
    rw [invalidateCache]
    simp only [if_true, redisDel, hr, unwrapDel]
    by_cases hn : delCount now (findEntry rs.data (generateCacheKey url)) = 0
    · simp [hn]
    · simp [hn]
  constructor
  · rw [invalidateCache]
    simp only [if_true, redisDel, hr, unwrapDel]
    cases hfe : findEntry rs.data (generateCacheKey url) with
    | none => simp [delCount, hfe]
    | some e =>
        cases hlive : liveAt now e with
        | false => simp [delCount, hfe, hlive]
        | true =>
            simp only [delCount, hfe, hlive, if_true]
            simp [hlive]
  · rw [invalidateCache, h2]
    simp only [if_true, redisDel, hr, unwrapDel]
    rw [findEntry_filter_self]
    simp [delCount]

/-- Invalidate twice at a concrete instance: the iff and the second
`false`. -/
theorem invalidate_semantics_check :
    ((invalidateCache true
        ⟨true, [(generateCacheKey "u" "playstore", ⟨"v", 5⟩)], 0⟩ 0 "u").1 =
        true ↔
      ∃ e, findEntry [(generateCacheKey "u" "playstore", ⟨"v", 5⟩)]
          (generateCacheKey "u") = some e ∧ liveAt 0 e = true) ∧
    (invalidateCache true
      (invalidateCache true
        ⟨true, [(generateCacheKey "u" "playstore", ⟨"v", 5⟩)], 0⟩ 0 "u").2
      0 "u").1 = false :=
  invalidate_semantics
    ⟨true, [(generateCacheKey "u" "playstore", ⟨"v", 5⟩)], 0⟩ 0 "u" rfl

end ExtractReq

namespace ExtractReq

/-- C8 (amended): `clear_all_cache` reports a boolean, not a count: it
returns `true` exactly when at least one live `playstore:` key existed,
and afterwards no live `playstore:` key remains. -/
theorem clear_all_bool_semantics (rs : RedisState) (now : Nat)
    (hr : rs.reachable = true) :
    (clearAllCache true rs now).1 = !(livePlayKeys rs now).isEmpty ∧
    livePlayKeys (clearAllCache true rs now).2 now = [] := by
  have hkeys : redisKeys rs now "playstore:" = .ok (livePlayKeys rs now) := by
    rw [redisKeys, if_pos hr]
    rfl
  rw [clearAllCache]
  simp only [if_true]
  rw [hkeys, show (Except.ok (livePlayKeys rs now)).bind (clearKeys rs now) =
        clearKeys rs now (livePlayKeys rs now) from rfl, clearKeys]
  by_cases hemp : (livePlayKeys rs now).isEmpty = true
  · rw [if_pos hemp]
    refine ⟨by simp [unwrapClear, hemp], ?_⟩
    show livePlayKeys rs now = []
    exact List.isEmpty_iff.mp hemp
  · rw [if_neg hemp, redisDelMany, if_pos hr]
    have hemp2 : (livePlayKeys rs now).isEmpty = false := by
      revert hemp; cases (livePlayKeys rs now).isEmpty <;> simp
    refine ⟨by simp [unwrapClear, Except.map, hemp2], ?_⟩
    show livePlayKeys
        ⟨rs.reachable,
         rs.data.filter (fun p => !(livePlayKeys rs now).contains p.1),
         rs.usedMemory⟩ now = []
    rw [livePlayKeys, List.map_eq_nil_iff, List.filter_eq_nil_iff]
    intro q hq hcond
    rw [List.mem_filter] at hq
    rw [Bool.and_eq_true] at hcond
    have hqin : q.1 ∈ livePlayKeys rs now := by
      rw [livePlayKeys]
      exact List.mem_map_of_mem _
        (List.mem_filter.mpr ⟨hq.1, by rw [Bool.and_eq_true]; exact hcond⟩)
    have hfalse : (livePlayKeys rs now).contains q.1 = false := by
      have := hq.2; rwa [Bool.not_eq_true'] at this
    have hctrue : (livePlayKeys rs now).contains q.1 = true :=
      List.elem_iff.mpr hqin
    rw [hctrue] at hfalse
    exact absurd hfalse (by decide)

/-- `clear_all_cache` at a concrete instance with one live entry. -/
theorem clear_all_bool_semantics_check :
    (clearAllCache true ⟨true, [("playstore:a", ⟨"v", 5⟩)], 0⟩ 0).1 =
      !(livePlayKeys ⟨true, [("playstore:a", ⟨"v", 5⟩)], 0⟩ 0).isEmpty ∧
    livePlayKeys
      (clearAllCache true ⟨true, [("playstore:a", ⟨"v", 5⟩)], 0⟩ 0).2 0 =
      [] :=
  clear_all_bool_semantics ⟨true, [("playstore:a", ⟨"v", 5⟩)], 0⟩ 0 rfl

/-- The claimed count return is refuted: stores with one and with two
live `playstore:` entries make `clear_all_cache` return the same value,
so the return cannot be the number of entries removed. -/
theorem clear_all_count_refuted :
    ∃ (rs1 rs2 : RedisState) (now : Nat),
      (livePlayKeys rs1 now).length = 1 ∧
      (livePlayKeys rs2 now).length = 2 ∧
      (clearAllCache true rs1 now).1 = (clearAllCache true rs2 now).1 :=
  ⟨⟨true, [("playstore:a", ⟨"v", 1⟩)], 0⟩,
   ⟨true, [("playstore:a", ⟨"v", 1⟩), ("playstore:b", ⟨"v", 1⟩)], 0⟩, 0,
   by decide, by decide, by decide⟩

/-- C9 (amended): the reports `get_cache_stats` actually returns: the
disabled report has no `memory_used_bytes` field, the successful report
has all four fields, and the failure report has only `enabled` and
`error`. -/
theorem stats_fields_actual (rs : RedisState) (now : Nat) :
    getCacheStats false rs now =
      [("enabled", .jbool false), ("total_keys", .jint 0),
       ("memory_used", .jstr "0 MB")] ∧
    (rs.reachable = true →
      getCacheStats true rs now =
        [("enabled", .jbool true),
         ("total_keys", .jint (livePlayKeys rs now).length),
         ("memory_used_bytes", .jint rs.usedMemory),
         ("memory_used", .jstr (formatMB rs.usedMemory))]) ∧
    (rs.reachable = false →
      getCacheStats true rs now =
        [("enabled", .jbool true), ("error", .jstr "ConnectionError")]) := by
  refine ⟨rfl, ?_, ?_⟩
  · intro hr
    rw [getCacheStats]
    simp only [if_true]
    rw [show redisKeys rs now "playstore:" = .ok (livePlayKeys rs now) from
          by rw [redisKeys, if_pos hr]; rfl,
        show redisInfoMem rs = .ok rs.usedMemory from
          by rw [redisInfoMem, if_pos hr]]
    rfl
  · intro hrf
    simp [getCacheStats, redisKeys, hrf, statsFin, Except.bind]

/-- The three stats reports at concrete stores. -/
theorem stats_fields_actual_check :
    getCacheStats false ⟨true, [], 7⟩ 0 =
      [("enabled", .jbool false), ("total_keys", .jint 0),
       ("memory_used", .jstr "0 MB")] ∧
    getCacheStats true ⟨true, [], 7⟩ 0 =
      [("enabled", .jbool true),
       ("total_keys", .jint (livePlayKeys ⟨true, [], 7⟩ 0).length),
       ("memory_used_bytes", .jint ((7 : Nat) : Int)),
       ("memory_used", .jstr (formatMB 7))] ∧
    getCacheStats true ⟨false, [], 7⟩ 0 =
      [("enabled", .jbool true), ("error", .jstr "ConnectionError")] :=
  ⟨(stats_fields_actual ⟨true, [], 7⟩ 0).1,
   (stats_fields_actual ⟨true, [], 7⟩ 0).2.1 rfl,
   (stats_fields_actual ⟨false, [], 7⟩ 0).2.2 rfl⟩

/-- The claimed field set is refuted: the disabled report carries no
`memory_used_bytes` and the failure report carries no `total_keys`. -/
theorem stats_fields_refuted :
    ((getCacheStats false ⟨true, [], 0⟩ 0).find?
      (fun p => p.1 == "memory_used_bytes")) = none ∧
    ((getCacheStats true ⟨false, [], 0⟩ 0).find?
      (fun p => p.1 == "total_keys")) = none :=
  ⟨rfl, rfl⟩

/-- C10: the management operations only touch the `playstore`
namespace: the invalidation key always carries the `playstore:` prefix,
an entry outside that prefix survives both `invalidate_cache` and
`clear_all_cache` unchanged, and it is never counted among the
`playstore:*` keys that `get_cache_stats` reports. -/
theorem management_playstore_frame (rs : RedisState) (now : Nat)
    (url : String) (p : String × EntryV) (hp : p ∈ rs.data)
    (hnp : "playstore:".data.isPrefixOf p.1.data = false) :
    "playstore:".data.isPrefixOf (generateCacheKey url).data = true ∧
    p ∈ (invalidateCache true rs now url).2.data ∧
    p ∈ (clearAllCache true rs now).2.data ∧
    p.1 ∉ livePlayKeys rs now := by
  have hpref : "playstore:".data.isPrefixOf
      (generateCacheKey url).data = true := by
    have hsplit : ("playstore:" : String).data <+: (generateCacheKey url).data :=
      ⟨(sha256Hex (utf8Bytes (pyNormalize url))).data, rfl⟩
    exact List.isPrefixOf_iff_prefix.mpr hsplit
  have hne : p.1 ≠ generateCacheKey url := by
    intro he
    rw [he, hpref] at hnp
    exact absurd hnp (by decide)
  have hnotin : p.1 ∉ livePlayKeys rs now := by
    intro hin
    rw [livePlayKeys, List.mem_map] at hin
    obtain ⟨q, hq, hq1⟩ := hin
    rw [List.mem_filter, Bool.and_eq_true] at hq
    have hqp := hq.2.1
    rw [hq1] at hqp
    rw [hqp] at hnp
    exact absurd hnp (by decide)
  refine ⟨hpref, ?_, ?_, hnotin⟩
  · cases hrc : rs.reachable with
    | false =>
        simp only [invalidateCache, if_true, redisDel, hrc, unwrapDel]
        simp only [Bool.false_eq_true, if_false]
        exact hp
    | true =>
        rw [invalidateCache]
        simp only [if_true, redisDel, hrc, if_true, unwrapDel]
        by_cases hn :
            delCount now (findEntry rs.data (generateCacheKey url)) = 0
        · rw [if_pos hn]
          show p ∈ rs.data.filter (fun q => q.1 != generateCacheKey url)
          exact List.mem_filter.mpr ⟨hp, bne_iff_ne.mpr hne⟩
        · rw [if_neg hn]
          show p ∈ rs.data.filter (fun q => q.1 != generateCacheKey url)
          exact List.mem_filter.mpr ⟨hp, bne_iff_ne.mpr hne⟩
  · cases hrc : rs.reachable with
    | false =>
        simp only [clearAllCache, if_true, redisKeys, hrc,
          Bool.false_eq_true, if_false, Except.bind, unwrapClear]
        exact hp
    | true =>
        rw [clearAllCache]
        simp only [if_true]
        rw [show redisKeys rs now "playstore:" = .ok (livePlayKeys rs now)
              from by rw [redisKeys, if_pos hrc]; rfl,
            show (Except.ok (livePlayKeys rs now)).bind (clearKeys rs now) =
              clearKeys rs now (livePlayKeys rs now) from rfl, clearKeys]
        by_cases hemp : (livePlayKeys rs now).isEmpty = true
        · rw [if_pos hemp]
          exact hp
        · rw [if_neg hemp, redisDelMany, if_pos hrc]
          show p ∈ rs.data.filter
            (fun q => !(livePlayKeys rs now).contains q.1)
          refine List.mem_filter.mpr ⟨hp, ?_⟩
          rw [Bool.not_eq_true']
          cases hc : (livePlayKeys rs now).contains p.1
          · rfl
          · exact absurd (List.mem_of_elem_eq_true hc) hnotin

/-- The frame at a concrete instance: a `csv:` entry survives both
management operations. -/
theorem management_playstore_frame_check :
    "playstore:".data.isPrefixOf (generateCacheKey "u").data = true ∧
    ("csv:abc", (⟨"v", 5⟩ : EntryV)) ∈
      (invalidateCache true ⟨true, [("csv:abc", ⟨"v", 5⟩)], 0⟩ 0 "u").2.data ∧
    ("csv:abc", (⟨"v", 5⟩ : EntryV)) ∈
      (clearAllCache true ⟨true, [("csv:abc", ⟨"v", 5⟩)], 0⟩ 0).2.data ∧
    ("csv:abc", (⟨"v", 5⟩ : EntryV)).1 ∉
      livePlayKeys ⟨true, [("csv:abc", ⟨"v", 5⟩)], 0⟩ 0 :=
  management_playstore_frame ⟨true, [("csv:abc", ⟨"v", 5⟩)], 0⟩ 0 "u"
    ("csv:abc", ⟨"v", 5⟩) (by decide) (by decide)

end ExtractReq

